import Mathlib

/-!
# odmcheck: a shallow embedding of `odmcheck.cpp`

The program compares the version record declared in `/odm/odm_version.prop`
with the record of the running build (three system properties and the kernel
banner) and shows a diagnostic screen when they differ.

Conventions of the embedding.

* A byte is a `Nat` (the `unsigned char` value); text is a `List Nat`.
* A C string held in a buffer is the list of bytes in front of its first NUL.
* A `char[PROPERTY_VALUE_MAX]` array is a list of exactly that many bytes.
* Functions that write through a pointer return the new content.
* The outside world (files, property store, `stat`) is an explicit `Env`.
-/

namespace Odmcheck

/-! ## Bytes and the C library -/

/-- Bytes of a string literal. -/
def bytes (s : String) : List Nat := s.toList.map Char.toNat

/-- Modelled from the spec: the constant `PROPERTY_VALUE_MAX` is declared in
`<cutils/properties.h>`, which is not among the sources; the specification
gives the property-value limit as 92 bytes. -/
def PROPERTY_VALUE_MAX : Nat := 92

/-- The `isspace` of the C locale: space, `\t`, `\n`, `\v`, `\f`, `\r`. -/
def isspace (c : Nat) : Bool := c == 32 || (9 ≤ c && c ≤ 13)

/-- The `isdigit` of the C locale. -/
def isdigit (c : Nat) : Bool := 48 ≤ c && c ≤ 57

/-- The C string stored at the start of a buffer: the bytes before the first NUL. -/
def cstr (buf : List Nat) : List Nat := buf.takeWhile (fun c => c != 0)

/-- The call `strncpy(dst, src, n)` for a destination array of exactly `n` bytes:
the first `n` bytes of the string `src`, padded with NUL bytes up to `n`.
No terminator is written when `src` has `n` bytes or more. -/
def strncpy (src : List Nat) (n : Nat) : List Nat :=
  (cstr src).take n ++ List.replicate (n - (cstr src).length) 0

/-- Writing the string `s` and its terminating NUL at the start of `buf`
(`strcpy`, `sprintf`, the copy done by `property_get`); the bytes of `buf`
behind the terminator keep their content. Every string written by the program
is shorter than its buffer; the model cuts the write at the end of the array. -/
def store_cstr (buf s : List Nat) : List Nat :=
  (s ++ 0 :: buf.drop (s.length + 1)).take buf.length

/-- The call `memcmp(a, b, n)`: zero when the first `n` bytes agree, otherwise the
difference of the first pair of bytes that differ (C fixes only its sign). -/
def memcmp : List Nat → List Nat → Nat → Int
  | _, _, 0 => 0
  | a :: as, b :: bs, n + 1 => if a = b then memcmp as bs n else (a : Int) - (b : Int)
  | _, _, _ + 1 => 0

/-- The bytes `fgets` stores for a buffer with room for `k` characters: it stops
behind the first newline, after `k` characters, or at the end of the stream.
The result is the pair of the characters read and the rest of the stream. -/
def fgets_take : Nat → List Nat → List Nat × List Nat
  | 0, s => ([], s)
  | _ + 1, [] => ([], [])
  | k + 1, c :: s =>
    if c = 10 then ([c], s)
    else ((c :: (fgets_take k s).1), (fgets_take k s).2)

/-- The call `fgets(line, size, f)` on a stream with `s` left to read: `none` is
the null result at end of file. -/
def fgets (size : Nat) (s : List Nat) : Option (List Nat × List Nat) :=
  match s with
  | [] => none
  | _ :: _ => some (fgets_take (size - 1) s)

/-- The call `strchr(s, c)` followed by `*p++ = 0`: the string in front of the
first `c` and the string behind it; `none` when `c` does not occur. -/
def strchr_split (c : Nat) : List Nat → Option (List Nat × List Nat)
  | [] => none
  | x :: xs =>
    if x = c then some ([], xs)
    else match strchr_split c xs with
      | none => none
      | some (l, r) => some (x :: l, r)

/-! ## Constants of the program -/

def PROC_VERSION : List Nat := bytes "/proc/version"
def VERSION_FILE : List Nat := bytes "/odm/odm_version.prop"
def ODM_DIR : List Nat := bytes "/odm"
def ROOT_DIR : List Nat := bytes "/"

def TAG_KERNEL_VERSION : List Nat := bytes "ro.kernel.version"
def TAG_ANDROID_VERSION : List Nat := bytes "ro.build.version"
def TAG_ODM_REVISION : List Nat := bytes "ro.vendor.version"
def TAG_PLATFORM_VERSION : List Nat := bytes "ro.platform.version"
def BUILD_PROP_ANDROID_VERSION : List Nat := bytes "ro.build.version.release"
def BUILD_PROP_ODM_VERSION : List Nat := bytes "ro.vendor.version"
def BUILD_PROP_PLATFORM_VERSION : List Nat := bytes "ro.board.platform"

/-! ## The record -/

/-- One `char[PROPERTY_VALUE_MAX]` array. -/
abbrev Field : Type := { l : List Nat // l.length = PROPERTY_VALUE_MAX }

/-- The `struct odmcheck_version_info`. -/
structure odmcheck_version_info where
  android_version : Field
  kernel_version : Field
  odm_revision : Field
  platform_version : Field
deriving DecidableEq

/-- An array of NUL bytes. -/
def Field.zero : Field := ⟨List.replicate PROPERTY_VALUE_MAX 0, by simp⟩

/-- The record after `memset(&info, 0, sizeof(info))`. -/
def zeroed : odmcheck_version_info :=
  ⟨Field.zero, Field.zero, Field.zero, Field.zero⟩

/-- The bytes of the struct in memory: the four arrays in declaration order
(arrays of `char` have no padding between them). -/
def image (r : odmcheck_version_info) : List Nat :=
  r.android_version.val ++ r.kernel_version.val ++ r.odm_revision.val ++ r.platform_version.val

/-- The value `sizeof(struct odmcheck_version_info)`. -/
def sizeof_info : Nat := 4 * PROPERTY_VALUE_MAX

/-- The array after `strncpy(field, value, sizeof(field))`. -/
def Field.strncpy (value : List Nat) : Field :=
  ⟨Odmcheck.strncpy value PROPERTY_VALUE_MAX, by
    simp only [Odmcheck.strncpy, List.length_append, List.length_take, List.length_replicate]
    omega⟩

/-- The array after the string `s` was written at its start. -/
def Field.store (f : Field) (s : List Nat) : Field :=
  ⟨store_cstr f.val s, by
    have h := f.property
    simp only [store_cstr, List.length_take, List.length_append, List.length_cons,
      List.length_drop]
    omega⟩

/-! ## The outside world -/

/-- What the program reads from its environment. -/
structure Env where
  /-- The content of `/odm/odm_version.prop`; `none` when `fopen` fails. -/
  version_file : Option (List Nat)
  /-- The content of `/proc/version`; `none` when `fopen` fails. -/
  proc_version : Option (List Nat)
  /-- The property store: the value of a key, empty when the key is absent. -/
  props : List Nat → List Nat
  /-- The field `st_dev` that `stat` reports for a path; `none` when `stat` fails. -/
  stat : List Nat → Option Nat

/-- The call `property_get(key, value, NULL)` of libcutils: the value of the
property is written into the array as a string and its length is returned; an
absent property writes the empty string and returns 0. A property value has
fewer than `PROPERTY_VALUE_MAX` bytes. -/
def property_get (env : Env) (key : List Nat) (value : Field) : Int × Field :=
  let v := (cstr (env.props key)).take (PROPERTY_VALUE_MAX - 1)
  ((v.length : Int), value.store v)

/-! ## The functions of `odmcheck.cpp` -/

/-- The function `odmcheck_dir_mounted`. -/
def odmcheck_dir_mounted (env : Env) (dir : List Nat) : Int :=
  match env.stat dir, env.stat ROOT_DIR with
  | some mp, some mp_root => if mp ≠ mp_root then 1 else 0
  | _, _ => 0

/-- The function `odmcheck_strip_both` on the string `s` points to: `none` is the
null result. The NUL it writes lies inside the string it was given, so the
returned string is the only effect the caller can observe. -/
def odmcheck_strip_both (s : List Nat) : Option (List Nat) :=
  match s.dropWhile (fun c => isspace c && c != 0) with
  | [] => none
  | c :: t =>
    if c = 0 then none
    else some ((c :: t).takeWhile (fun c => !isspace c && c != 0))

/-- The body of the `while (fgets(...))` loop of `odmcheck_read_version_file`
for the characters `line` stored by `fgets`. -/
def process_line (line : List Nat) (info : odmcheck_version_info) : odmcheck_version_info :=
  match strchr_split 61 (cstr line) with
  | none => info
  | some (name_raw, value_raw) =>
    match odmcheck_strip_both name_raw, odmcheck_strip_both value_raw with
    | some name, some value =>
      if TAG_ANDROID_VERSION = name then
        { info with android_version := Field.strncpy value }
      else if TAG_ODM_REVISION = name then
        { info with odm_revision := Field.strncpy value }
      else if TAG_KERNEL_VERSION = name then
        { info with kernel_version := Field.strncpy value }
      else if TAG_PLATFORM_VERSION = name then
        { info with platform_version := Field.strncpy value }
      else info
    | _, _ => info

/-- The loop `while (fgets(line, sizeof(line), f))` over the unread part `s` of
the file. Every round consumes at least one byte, so `s.length` rounds of fuel
reach the end of the file. -/
def read_loop : Nat → List Nat → odmcheck_version_info → odmcheck_version_info
  | 0, _, info => info
  | fuel + 1, s, info =>
    match fgets 256 s with
    | none => info
    | some (line, rest) => read_loop fuel rest (process_line line info)

/-- The function `odmcheck_read_version_file` for the file at `file_path`
(`none`: it cannot be opened). Both pointers are non-null at its call site. -/
def odmcheck_read_version_file (file : Option (List Nat)) (info : odmcheck_version_info) :
    Int × odmcheck_version_info :=
  match file with
  | none => (-1, info)
  | some content => (0, read_loop content.length content info)

/-! ### The kernel banner -/

/-- One directive of a `scanf` format. -/
inductive Directive where
  | lit (c : Nat)
  | ws
  | int
deriving DecidableEq

/-- The directives of a format string made of ordinary characters, white space
and `%d`. -/
def parse_format : List Nat → List Directive
  | [] => []
  | 37 :: 100 :: rest => Directive.int :: parse_format rest
  | c :: rest => (if isspace c then Directive.ws else Directive.lit c) :: parse_format rest

/-- The number denoted by a string of decimal digits. -/
def digits_val (ds : List Nat) : Nat := ds.foldl (fun acc d => 10 * acc + (d - 48)) 0

/-- Conversion of a number to `int`. C leaves a `%d` whose value does not fit
undefined; the model wraps modulo `2^32`. -/
def to_int (v : Int) : Int := (v + 2 ^ 31) % 2 ^ 32 - 2 ^ 31

/-- The directive `%d`: skip white space, accept a sign, read the longest run of
digits; `none` when there is no digit. -/
def scan_d (s : List Nat) : Option (Int × List Nat) :=
  let s1 := s.dropWhile isspace
  let neg := s1.head? == some 45
  let s2 := if s1.head? == some 45 || s1.head? == some 43 then s1.drop 1 else s1
  let ds := s2.takeWhile isdigit
  if ds = [] then none
  else some (to_int (if neg then -(digits_val ds : Int) else (digits_val ds : Int)),
             s2.dropWhile isdigit)

/-- The values `sscanf` assigns for a format, in order; it stops at the first
directive that fails. The count `sscanf` returns is the length of the list
(when nothing was assigned C returns 0 or `EOF`, both different from 3). -/
def sscanf : List Directive → List Nat → List Int
  | [], _ => []
  | Directive.lit c :: fmt, s =>
    match s with
    | [] => []
    | x :: t => if x = c then sscanf fmt t else []
  | Directive.ws :: fmt, s => sscanf fmt (s.dropWhile isspace)
  | Directive.int :: fmt, s =>
    match scan_d s with
    | none => []
    | some (v, t) => v :: sscanf fmt t

/-- The output of `%d` in `sprintf`. -/
def print_d (v : Int) : List Nat :=
  if v < 0 then 45 :: bytes (Nat.repr v.natAbs) else bytes (Nat.repr v.natAbs)

/-- The function `odmcheck_get_kernel_version`; the pointer is non-null at its
call site. -/
def odmcheck_get_kernel_version (env : Env) (kernel_version : Field) : Int × Field :=
  match env.proc_version with
  | none => (-1, kernel_version)
  | some content =>
    match fgets 256 content with
    | none => (-1, kernel_version)
    | some (line, _) =>
      match sscanf (parse_format (bytes "Linux version %d.%d.%d-")) (cstr line) with
      | [major, minor, _] =>
        (0, kernel_version.store (print_d major ++ 46 :: print_d minor))
      | _ => (-1, kernel_version)

/-- The function `odmcheck_read_build_prop`: the four steps of the `||` chain run
in order and stop at the first one that fails. -/
def odmcheck_read_build_prop (env : Env) (build_info : odmcheck_version_info) :
    Int × odmcheck_version_info :=
  let p1 := property_get env BUILD_PROP_ANDROID_VERSION build_info.android_version
  let b1 := { build_info with android_version := p1.2 }
  if p1.1 ≤ 0 then (-1, b1)
  else
    let k := odmcheck_get_kernel_version env b1.kernel_version
    let b2 := { b1 with kernel_version := k.2 }
    if k.1 ≠ 0 then (-1, b2)
    else
      let p3 := property_get env BUILD_PROP_ODM_VERSION b2.odm_revision
      let b3 := { b2 with odm_revision := p3.2 }
      if p3.1 ≤ 0 then (-1, b3)
      else
        let p4 := property_get env BUILD_PROP_PLATFORM_VERSION b3.platform_version
        let b4 := { b3 with platform_version := p4.2 }
        if p4.1 ≤ 0 then (-1, b4) else (0, b4)

/-- The function `odmcheck_compare_versions`. -/
def odmcheck_compare_versions (info build_info : odmcheck_version_info) : Int :=
  memcmp (image info) (image build_info) sizeof_info

/-! ### The entry point -/

/-- A call `main` makes to one of the later stages, with its arguments. -/
inductive Call where
  | read_build_prop
  | compare_versions (info build_info : odmcheck_version_info)
  | display_error (info build_info : odmcheck_version_info)
deriving DecidableEq

/-- What one execution of `main` produces. -/
structure Run where
  /-- The value `main` returns. -/
  ret : Int
  /-- The value of `odmcheck_dir_mounted(ODM_DIR)` written to the log. -/
  mounted : Int
  /-- The declared record at the end of `main`. -/
  info : odmcheck_version_info
  /-- The actual record at the end of `main`. -/
  build_info : odmcheck_version_info
  /-- The calls to later stages, in order. -/
  calls : List Call
deriving DecidableEq

/-- The first field byte `field[0]`. -/
def Field.first (f : Field) : Nat := f.val.headD 0

/-- The condition of the missing-property test in `main`. -/
def missing_field (info : odmcheck_version_info) : Bool :=
  info.android_version.first == 0 || info.kernel_version.first == 0 ||
    info.odm_revision.first == 0 || info.platform_version.first == 0

/-- The function `main`, built with `ODMCHECK_WARN_ONLY` defined as in the
source (no shutdown request after the diagnostic). -/
def main (env : Env) : Run :=
  let mounted := odmcheck_dir_mounted env ODM_DIR
  let rf := odmcheck_read_version_file env.version_file zeroed
  let info := rf.2
  let ret1 : Int := if rf.1 ≠ 0 then -1 else 0
  let rb := if ret1 = 0 then odmcheck_read_build_prop env zeroed else (0, zeroed)
  let calls2 : List Call := if ret1 = 0 then [Call.read_build_prop] else []
  let build_info := rb.2
  let ret2 : Int := if ret1 = 0 ∧ rb.1 ≠ 0 then -1 else ret1
  let ret3 : Int := if ret2 = 0 ∧ missing_field info = true then -2 else ret2
  let ret4 : Int := if ret3 = 0 then odmcheck_compare_versions info build_info else ret3
  let calls4 : List Call :=
    if ret3 = 0 then calls2 ++ [Call.compare_versions info build_info] else calls2
  let calls5 : List Call :=
    if ret4 ≠ 0 then calls4 ++ [Call.display_error info build_info] else calls4
  { ret := ret4, mounted := mounted, info := info, build_info := build_info, calls := calls5 }


/-! ## Notions used by the statements -/

/-- The environment of the scenarios of the specification: the build is Android 9,
revision R1, kernel 4.9, platform sdm660; the descriptor file is `file`. -/
def scenario (file : List Nat) (stat : List Nat → Option Nat) : Env where
  version_file := some file
  proc_version := some (bytes "Linux version 4.9.117-foo (gcc version 4.9.x) #1 SMP PREEMPT\n")
  props := fun key =>
    if key = BUILD_PROP_ANDROID_VERSION then bytes "9"
    else if key = BUILD_PROP_ODM_VERSION then bytes "R1"
    else if key = BUILD_PROP_PLATFORM_VERSION then bytes "sdm660"
    else []
  stat := stat

/-- The descriptor file of scenario A. -/
def file_A : List Nat :=
  bytes "ro.build.version = 9\nro.vendor.version = R1\nro.kernel.version = 4.9\nro.platform.version = sdm660\n"

/-- The descriptor file of scenario B. -/
def file_B : List Nat :=
  bytes "ro.build.version = 9\nro.vendor.version = R2\nro.kernel.version = 4.9\nro.platform.version = sdm660\n"

/-- The descriptor file of scenario C: no `ro.kernel.version` line. -/
def file_C : List Nat :=
  bytes "ro.build.version = 9\nro.vendor.version = R1\nro.platform.version = sdm660\n"

/-- Some field of the record holds the empty string. -/
def has_empty_field (r : odmcheck_version_info) : Prop :=
  cstr r.android_version.val = [] ∨ cstr r.kernel_version.val = [] ∨
    cstr r.odm_revision.val = [] ∨ cstr r.platform_version.val = []

/-- Removal of the leading and of the trailing white space of a string, the
reading the specification gives of trimming; interior characters are kept. -/
def spec_trim (s : List Nat) : List Nat :=
  ((s.dropWhile isspace).reverse.dropWhile isspace).reverse

/-- The first `min(|v|, PROPERTY_VALUE_MAX)` bytes of `v`, padded with NUL bytes to
the size of a field. -/
def padded_value (v : List Nat) : List Nat :=
  v.take (min v.length PROPERTY_VALUE_MAX) ++
    List.replicate (PROPERTY_VALUE_MAX - min v.length PROPERTY_VALUE_MAX) 0

/-- The field holds a non-empty string without white space. -/
def token_field (f : Field) : Prop :=
  cstr f.val ≠ [] ∧ ∀ c ∈ cstr f.val, isspace c = false

/-- Every byte of the array from the first NUL on is NUL. -/
def zero_padded (f : Field) : Prop :=
  ∀ c ∈ f.val.dropWhile (fun c => c != 0), c = 0

/-- The record whose fields hold the given strings, NUL-padded. -/
def record_of (android kernel odm platform : List Nat) : odmcheck_version_info :=
  ⟨Field.strncpy android, Field.strncpy kernel, Field.strncpy odm, Field.strncpy platform⟩

/-- One descriptor line `<tag> = <value>`. -/
def write_line (tag value : List Nat) : List Nat :=
  tag ++ bytes " = " ++ value ++ bytes "\n"

/-- Modelled from the spec: the program has no writer of descriptor files; the
round-trip property speaks of a record written as four lines `<tag> = <value>`
with the four recognized tags, each value the string its field holds. -/
def write_version_file (r : odmcheck_version_info) : List Nat :=
  write_line TAG_ANDROID_VERSION (cstr r.android_version.val) ++
  (write_line TAG_ODM_REVISION (cstr r.odm_revision.val) ++
  (write_line TAG_KERNEL_VERSION (cstr r.kernel_version.val) ++
  write_line TAG_PLATFORM_VERSION (cstr r.platform_version.val)))

/-- The version text a banner line yields: `major.minor` when the three
conversions of the format succeed, `none` otherwise. -/
def banner_version (line : List Nat) : Option (List Nat) :=
  match sscanf (parse_format (bytes "Linux version %d.%d.%d-")) (cstr line) with
  | [major, minor, _] => some (print_d major ++ 46 :: print_d minor)
  | _ => none

/-- The text `odmcheck_get_kernel_version` writes in an environment; `none` when it
fails (no file, empty file, or a first line that does not parse). -/
def kernel_text (env : Env) : Option (List Nat) :=
  match env.proc_version with
  | none => none
  | some content =>
    match fgets 256 content with
    | none => none
    | some (line, _) => banner_version line

/-- The environment of scenario E: as in scenario A, but the property store has no
`ro.board.platform`. -/
def scenario_E : Env where
  version_file := some file_A
  proc_version := some (bytes "Linux version 4.9.117-foo (gcc version 4.9.x) #1 SMP PREEMPT\n")
  props := fun key =>
    if key = BUILD_PROP_ANDROID_VERSION then bytes "9"
    else if key = BUILD_PROP_ODM_VERSION then bytes "R1"
    else []
  stat := fun _ => none

/-- The directives of the format `Linux version %d.%d.%d-`. -/
def banner_format : List Directive :=
  parse_format (bytes "Linux version %d.%d.%d-")

/-- A number as the directive `%d` accepts it: white space, an optional sign, and
a non-empty run of digits. -/
def scanf_number (n : List Nat) : Prop :=
  ∃ w s ds, n = w ++ (s ++ ds) ∧ (∀ c ∈ w, isspace c = true) ∧
    (s = [] ∨ s = [45] ∨ s = [43]) ∧ ds ≠ [] ∧ ∀ c ∈ ds, isdigit c = true

/-- The lines on which the three conversions of the banner format succeed:
`Linux`, white space, `version`, white space, and three numbers separated by
dots, each number as `%d` accepts it; anything may follow. -/
def banner_shape (line : List Nat) : Prop :=
  ∃ w1 w2 n1 n2 n3 rest,
    line = bytes "Linux" ++ (w1 ++ (bytes "version" ++ (w2 ++ (n1 ++ 46 :: (n2 ++ 46 :: (n3 ++ rest)))))) ∧
    (∀ c ∈ w1, isspace c = true) ∧ (∀ c ∈ w2, isspace c = true) ∧
    scanf_number n1 ∧ scanf_number n2 ∧ scanf_number n3

/-- The pattern of the specification: `Linux version`, three non-empty runs of
digits separated by dots, and a `-`; anything may follow. -/
def spec_banner_pattern (line : List Nat) : Prop :=
  ∃ major minor micro rest,
    line = bytes "Linux version " ++ (major ++ 46 :: (minor ++ 46 :: (micro ++ 45 :: rest))) ∧
    (major ≠ [] ∧ ∀ c ∈ major, isdigit c = true) ∧
    (minor ≠ [] ∧ ∀ c ∈ minor, isdigit c = true) ∧
    (micro ≠ [] ∧ ∀ c ∈ micro, isdigit c = true)

/-- The value `property_get` delivers for a key: the stored string, which has fewer
than `PROPERTY_VALUE_MAX` bytes; empty when the property is absent. -/
def property_value (env : Env) (key : List Nat) : List Nat :=
  (cstr (env.props key)).take (PROPERTY_VALUE_MAX - 1)

/-- A descriptor file of one physical line: 255 filler bytes directly followed by
`ro.build.version=X`. -/
def long_line_file : List Nat :=
  List.replicate 255 120 ++ bytes "ro.build.version=X\n"

/-- Every field of the record is NUL from its first NUL on. -/
def all_padded (r : odmcheck_version_info) : Prop :=
  zero_padded r.android_version ∧ zero_padded r.kernel_version ∧
    zero_padded r.odm_revision ∧ zero_padded r.platform_version

/-- The four fields of the two records hold the same strings. -/
def same_strings (a b : odmcheck_version_info) : Prop :=
  cstr a.android_version.val = cstr b.android_version.val ∧
  cstr a.kernel_version.val = cstr b.kernel_version.val ∧
  cstr a.odm_revision.val = cstr b.odm_revision.val ∧
  cstr a.platform_version.val = cstr b.platform_version.val

/-- The name and the value an accepted line carries: the line has a `=`, and both
sides of the first `=` strip to a string; `none` for a line that is skipped. -/
def line_assignment (line : List Nat) : Option (List Nat × List Nat) :=
  match strchr_split 61 (cstr line) with
  | none => none
  | some (name_raw, value_raw) =>
    match odmcheck_strip_both name_raw, odmcheck_strip_both value_raw with
    | some name, some value => some (name, value)
    | _, _ => none

/-- The lines `fgets` delivers for the unread part `s` of a file, in order. -/
def file_lines : Nat → List Nat → List (List Nat)
  | 0, _ => []
  | fuel + 1, s =>
    match fgets 256 s with
    | none => []
    | some (line, rest) => line :: file_lines fuel rest

/-- The names and values of the accepted lines of a file, in order. -/
def assignments (content : List Nat) : List (List Nat × List Nat) :=
  (file_lines content.length content).filterMap line_assignment

/-- The value of the last assignment that carries the name `tag`. -/
def last_value (tag : List Nat) (l : List (List Nat × List Nat)) : Option (List Nat) :=
  ((l.filter (fun p => p.1 = tag)).getLast?).map (fun p => p.2)

/-- The field of `tag` after the assignments `l`: the value of the last one that
carries the tag, copied with `strncpy`; the initial content when there is none. -/
def field_after (tag : List Nat) (l : List (List Nat × List Nat)) (initial : Field) : Field :=
  match last_value tag l with
  | none => initial
  | some v => Field.strncpy v

/-- The effect of one line on the field of `tag`. -/
def field_update (tag : List Nat) (a : Option (List Nat × List Nat)) (f : Field) : Field :=
  match a with
  | none => f
  | some (name, value) => if name = tag then Field.strncpy value else f

/-- A descriptor file in which `ro.build.version` occurs twice, first with the
longer value, and `ro.kernel.version` not at all. -/
def file_twice : List Nat :=
  bytes "ro.build.version = 8.1.0\nro.vendor.version = R1\nro.build.version = 9\n"

/-! ## Supporting lemmas -/

set_option maxRecDepth 100000

theorem memcmp_self (a : List Nat) (n : Nat) : memcmp a a n = 0 := by
  induction a generalizing n with
  | nil => cases n <;> simp [memcmp]
  | cons x xs ih => cases n <;> simp [memcmp, ih]

theorem memcmp_eq_zero (a b : List Nat) (n : Nat) (ha : a.length = n) (hb : b.length = n)
    (h : memcmp a b n = 0) : a = b := by
  induction a generalizing b n with
  | nil =>
    subst ha
    exact (List.length_eq_zero.mp hb).symm
  | cons x xs ih =>
    cases b with
    | nil => subst ha; simp at hb
    | cons y ys =>
      cases n with
      | zero => simp at ha
      | succ m =>
        simp only [List.length_cons, Nat.add_right_cancel_iff] at ha hb
        by_cases hxy : x = y
        · subst hxy
          simp only [memcmp, if_true] at h
          rw [ih ys m ha hb h]
        · simp only [memcmp, hxy, if_false] at h
          omega

theorem image_length (r : odmcheck_version_info) : (image r).length = sizeof_info := by
  simp only [image, List.length_append, sizeof_info, r.android_version.property,
    r.kernel_version.property, r.odm_revision.property, r.platform_version.property]
  omega

theorem image_inj (a b : odmcheck_version_info) (h : image a = image b) : a = b := by
  obtain ⟨⟨a1, ha1⟩, ⟨a2, ha2⟩, ⟨a3, ha3⟩, ⟨a4, ha4⟩⟩ := a
  obtain ⟨⟨b1, hb1⟩, ⟨b2, hb2⟩, ⟨b3, hb3⟩, ⟨b4, hb4⟩⟩ := b
  simp only [image, List.append_assoc] at h
  obtain ⟨h1, h⟩ := List.append_inj h (ha1.trans hb1.symm)
  obtain ⟨h2, h⟩ := List.append_inj h (ha2.trans hb2.symm)
  obtain ⟨h3, h4⟩ := List.append_inj h (ha3.trans hb3.symm)
  subst h1 h2 h3 h4
  rfl

theorem compare_versions_eq_zero (a b : odmcheck_version_info) :
    odmcheck_compare_versions a b = 0 ↔ a = b := by
  constructor
  · intro h
    exact image_inj a b (memcmp_eq_zero _ _ _ (image_length a) (image_length b) h)
  · rintro rfl
    exact memcmp_self _ _

/-- C1: the comparator returns 0 exactly when the two records agree in all four
fields, each field taken as its whole array of `PROPERTY_VALUE_MAX` bytes; so
it returns 0 for records equal in all four fields and a nonzero value as soon
as one field differs. -/
theorem compare_versions_zero_iff_fields (a b : odmcheck_version_info) :
    odmcheck_compare_versions a b = 0 ↔
      (a.android_version.val = b.android_version.val ∧
       a.kernel_version.val = b.kernel_version.val ∧
       a.odm_revision.val = b.odm_revision.val ∧
       a.platform_version.val = b.platform_version.val) := by
  rw [compare_versions_eq_zero]
  constructor
  · rintro rfl
    exact ⟨rfl, rfl, rfl, rfl⟩
  · rintro ⟨h1, h2, h3, h4⟩
    obtain ⟨a1, a2, a3, a4⟩ := a
    obtain ⟨b1, b2, b3, b4⟩ := b
    simp only at h1 h2 h3 h4
    rw [Subtype.ext h1, Subtype.ext h2, Subtype.ext h3, Subtype.ext h4]


theorem cstr_ne_nil_iff (f : Field) : cstr f.val ≠ [] ↔ f.first ≠ 0 := by
  obtain ⟨l, hl⟩ := f
  cases l with
  | nil => simp [cstr, Field.first]
  | cons x xs =>
    by_cases hx : x = 0 <;> simp [cstr, Field.first, List.takeWhile_cons, hx]

theorem main_ret_eq (env : Env) :
    (main env).ret =
      if (odmcheck_read_version_file env.version_file zeroed).1 ≠ 0 then -1
      else if (odmcheck_read_build_prop env zeroed).1 ≠ 0 then -1
      else if missing_field (odmcheck_read_version_file env.version_file zeroed).2 = true then -2
      else odmcheck_compare_versions (odmcheck_read_version_file env.version_file zeroed).2
        (odmcheck_read_build_prop env zeroed).2 := by
  unfold main
  by_cases h1 : (odmcheck_read_version_file env.version_file zeroed).1 = 0
  · by_cases h2 : (odmcheck_read_build_prop env zeroed).1 = 0
    · by_cases h3 : missing_field (odmcheck_read_version_file env.version_file zeroed).2 = true
      · simp [h1, h2, h3]
      · simp [h1, h2, h3]
    · simp [h1, h2]
  · simp [h1]

theorem main_ret_stat (env : Env) (stat : List Nat → Option Nat) :
    (main { env with stat := stat }).ret = (main env).ret := rfl


theorem missing_field_iff (r : odmcheck_version_info) :
    missing_field r = true ↔ has_empty_field r := by
  have h1 := cstr_ne_nil_iff r.android_version
  have h2 := cstr_ne_nil_iff r.kernel_version
  have h3 := cstr_ne_nil_iff r.odm_revision
  have h4 := cstr_ne_nil_iff r.platform_version
  simp only [missing_field, has_empty_field, Bool.or_eq_true, beq_iff_eq]
  tauto

theorem main_info_eq (env : Env) :
    (main env).info = (odmcheck_read_version_file env.version_file zeroed).2 := rfl

theorem main_build_info_eq (env : Env) :
    (main env).build_info =
      if (odmcheck_read_version_file env.version_file zeroed).1 ≠ 0 then zeroed
      else (odmcheck_read_build_prop env zeroed).2 := by
  unfold main
  by_cases h1 : (odmcheck_read_version_file env.version_file zeroed).1 = 0 <;> simp [h1]

theorem main_calls_eq (env : Env) :
    (main env).calls =
      if (odmcheck_read_version_file env.version_file zeroed).1 ≠ 0 then
        [Call.display_error (odmcheck_read_version_file env.version_file zeroed).2 zeroed]
      else if (odmcheck_read_build_prop env zeroed).1 ≠ 0 ∨
          missing_field (odmcheck_read_version_file env.version_file zeroed).2 = true then
        [Call.read_build_prop,
         Call.display_error (odmcheck_read_version_file env.version_file zeroed).2
           (odmcheck_read_build_prop env zeroed).2]
      else if odmcheck_compare_versions (odmcheck_read_version_file env.version_file zeroed).2
          (odmcheck_read_build_prop env zeroed).2 ≠ 0 then
        [Call.read_build_prop,
         Call.compare_versions (odmcheck_read_version_file env.version_file zeroed).2
           (odmcheck_read_build_prop env zeroed).2,
         Call.display_error (odmcheck_read_version_file env.version_file zeroed).2
           (odmcheck_read_build_prop env zeroed).2]
      else
        [Call.read_build_prop,
         Call.compare_versions (odmcheck_read_version_file env.version_file zeroed).2
           (odmcheck_read_build_prop env zeroed).2] := by
  unfold main
  by_cases h1 : (odmcheck_read_version_file env.version_file zeroed).1 = 0
  · by_cases h2 : (odmcheck_read_build_prop env zeroed).1 = 0
    · by_cases h3 : missing_field (odmcheck_read_version_file env.version_file zeroed).2 = true
      · simp [h1, h2, h3]
      · by_cases h4 : odmcheck_compare_versions
            (odmcheck_read_version_file env.version_file zeroed).2
            (odmcheck_read_build_prop env zeroed).2 = 0
        · simp [h1, h2, h3, h4]
        · simp [h1, h2, h3, h4]
    · simp [h1, h2]
  · simp [h1]

theorem read_version_file_fst (file : Option (List Nat)) (info : odmcheck_version_info) :
    (odmcheck_read_version_file file info).1 = 0 ↔ file ≠ none := by
  cases file <;> simp [odmcheck_read_version_file]

/-- C2: `main` returns 0 exactly when the descriptor file was opened and parsed,
the build-property read succeeded, no field of the declared record is empty
and the comparator returned 0 on the declared and the actual record. With the
four lines of scenario A and the same build-time values the exit code is 0;
with `ro.vendor.version = R2` in the file it is nonzero. -/
theorem main_zero_iff :
    (∀ env : Env, (main env).ret = 0 ↔
      ((odmcheck_read_version_file env.version_file zeroed).1 = 0 ∧
       (odmcheck_read_build_prop env zeroed).1 = 0 ∧
       ¬ has_empty_field (odmcheck_read_version_file env.version_file zeroed).2 ∧
       odmcheck_compare_versions (odmcheck_read_version_file env.version_file zeroed).2
         (odmcheck_read_build_prop env zeroed).2 = 0)) ∧
    (∀ stat, (main (scenario file_A stat)).ret = 0) ∧
    (∀ stat, (main (scenario file_B stat)).ret ≠ 0) := by
  refine ⟨?_, ?_, ?_⟩
  · intro env
    rw [main_ret_eq, ← missing_field_iff]
    by_cases h1 : (odmcheck_read_version_file env.version_file zeroed).1 = 0
    · by_cases h2 : (odmcheck_read_build_prop env zeroed).1 = 0
      · by_cases h3 : missing_field (odmcheck_read_version_file env.version_file zeroed).2 = true
        · simp [h1, h2, h3]
        · simp [h1, h2, h3]
      · simp [h1, h2]
    · simp [h1]
  · intro stat
    exact (main_ret_stat (scenario file_A (fun _ => none)) stat).trans (by decide)
  · intro stat
    have h : (main (scenario file_B (fun _ => none))).ret ≠ 0 := by decide
    exact fun h0 => h ((main_ret_stat (scenario file_B (fun _ => none)) stat).symm.trans h0)

/-- C3: when the descriptor file is opened and the build-property read succeeds
but a declared field is empty after parsing, `main` returns -2, never calls the
comparator, and calls the diagnostic presenter once, with the declared record
as parsed (its missing field empty) and the actual record as read. -/
theorem main_missing_field (env : Env) (content : List Nat)
    (hfile : env.version_file = some content)
    (hbuild : (odmcheck_read_build_prop env zeroed).1 = 0)
    (hmiss : has_empty_field (odmcheck_read_version_file (some content) zeroed).2) :
    (main env).ret = -2 ∧
    (∀ a b, Call.compare_versions a b ∉ (main env).calls) ∧
    (main env).calls =
      [Call.read_build_prop,
       Call.display_error (odmcheck_read_version_file (some content) zeroed).2
         (odmcheck_read_build_prop env zeroed).2] ∧
    (main env).info = (odmcheck_read_version_file (some content) zeroed).2 ∧
    has_empty_field (main env).info := by
  have h1 : (odmcheck_read_version_file (some content) zeroed).1 = 0 := rfl
  have h3 : missing_field (odmcheck_read_version_file (some content) zeroed).2 = true :=
    (missing_field_iff _).mpr hmiss
  have hc : (main env).calls =
      [Call.read_build_prop,
       Call.display_error (odmcheck_read_version_file (some content) zeroed).2
         (odmcheck_read_build_prop env zeroed).2] := by
    rw [main_calls_eq, hfile]
    simp [h1, hbuild, h3]
  refine ⟨?_, ?_, hc, ?_, ?_⟩
  · rw [main_ret_eq, hfile]
    simp [h1, hbuild, h3]
  · intro a b
    rw [hc]
    simp
  · rw [main_info_eq, hfile]
  · rw [main_info_eq, hfile]
    exact hmiss

/-- Scenario C: the descriptor file has no `ro.kernel.version` line; the kernel
field of the declared record is empty and the exit code is -2. -/
theorem main_missing_field_witness :
    cstr (odmcheck_read_version_file (some file_C) zeroed).2.kernel_version.val = [] ∧
    (main (scenario file_C (fun _ => some 0))).ret = -2 ∧
    (main (scenario file_C (fun _ => some 0))).calls =
      [Call.read_build_prop,
       Call.display_error (odmcheck_read_version_file (some file_C) zeroed).2
         (odmcheck_read_build_prop (scenario file_C (fun _ => some 0)) zeroed).2] :=
  ⟨by decide,
   (main_missing_field (scenario file_C (fun _ => some 0)) file_C rfl (by decide)
      (Or.inr (Or.inl (by decide)))).1,
   (main_missing_field (scenario file_C (fun _ => some 0)) file_C rfl (by decide)
      (Or.inr (Or.inl (by decide)))).2.2.1⟩

/-- C4, as stated, fails: in scenario C the run ends in a missing-field error and
the exit code is not -1. -/
theorem exit_code_minus_one_counterexample :
    ¬ (∀ env : Env,
        (env.version_file = none ∨ (odmcheck_read_build_prop env zeroed).1 ≠ 0 ∨
          has_empty_field (odmcheck_read_version_file env.version_file zeroed).2) →
        (main env).ret = -1) := by
  intro h
  have h2 := h (scenario file_C (fun _ => some 0)) (Or.inr (Or.inr (Or.inr (Or.inl (by decide)))))
  exact absurd h2 (by decide)

/-- C4 (amended): the exit code is -1 when the descriptor file cannot be opened or
the build-property read fails, -2 when both succeed and a declared field is
empty after parsing, and the nonzero result of the comparator when the records
differ. -/
theorem exit_code_cases (env : Env) :
    (env.version_file = none → (main env).ret = -1) ∧
    (env.version_file ≠ none → (odmcheck_read_build_prop env zeroed).1 ≠ 0 →
      (main env).ret = -1) ∧
    (env.version_file ≠ none → (odmcheck_read_build_prop env zeroed).1 = 0 →
      has_empty_field (odmcheck_read_version_file env.version_file zeroed).2 →
      (main env).ret = -2) ∧
    (env.version_file ≠ none → (odmcheck_read_build_prop env zeroed).1 = 0 →
      ¬ has_empty_field (odmcheck_read_version_file env.version_file zeroed).2 →
      odmcheck_compare_versions (odmcheck_read_version_file env.version_file zeroed).2
        (odmcheck_read_build_prop env zeroed).2 ≠ 0 →
      (main env).ret ≠ 0 ∧
      (main env).ret =
        odmcheck_compare_versions (odmcheck_read_version_file env.version_file zeroed).2
          (odmcheck_read_build_prop env zeroed).2) := by
  refine ⟨?_, ?_, ?_, ?_⟩
  · intro h
    rw [main_ret_eq, h]
    simp [odmcheck_read_version_file]
  · intro h hb
    have h1 := (read_version_file_fst env.version_file zeroed).mpr h
    rw [main_ret_eq]
    simp [h1, hb]
  · intro h hb hm
    have h1 := (read_version_file_fst env.version_file zeroed).mpr h
    have h3 := (missing_field_iff _).mpr hm
    rw [main_ret_eq]
    simp [h1, hb, h3]
  · intro h hb hm hc
    have h1 := (read_version_file_fst env.version_file zeroed).mpr h
    have h3 : ¬ missing_field (odmcheck_read_version_file env.version_file zeroed).2 = true :=
      fun h' => hm ((missing_field_iff _).mp h')
    rw [main_ret_eq]
    simp [h1, hb, h3, hc]

/-- The four cases of the exit code at concrete runs: no descriptor file, no
platform property, scenario C, scenario B. -/
theorem exit_code_cases_witness :
    (main { scenario file_A (fun _ => none) with version_file := none }).ret = -1 ∧
    (main { scenario file_A (fun _ => none) with proc_version := none }).ret = -1 ∧
    (main (scenario file_C (fun _ => none))).ret = -2 ∧
    (main (scenario file_B (fun _ => none))).ret ≠ 0 :=
  ⟨(exit_code_cases { scenario file_A (fun _ => none) with version_file := none }).1 rfl,
   (exit_code_cases { scenario file_A (fun _ => none) with proc_version := none }).2.1
      (by decide) (by decide),
   (exit_code_cases (scenario file_C (fun _ => none))).2.2.1 (by decide) (by decide)
      (Or.inr (Or.inl (by decide))),
   ((exit_code_cases (scenario file_B (fun _ => none))).2.2.2 (by decide) (by decide)
      (by unfold has_empty_field; decide) (by decide)).1⟩

/-! ### Strings -/

theorem isspace_ne_zero {c : Nat} (h : isspace c = true) : c ≠ 0 := by
  rintro rfl
  simp [isspace] at h

theorem cstr_eq_self (s : List Nat) (h : ∀ c ∈ s, c ≠ 0) : cstr s = s := by
  unfold cstr
  rw [List.takeWhile_eq_self_iff]
  intro c hc
  simpa using h c hc

theorem mem_cstr_ne_zero {buf : List Nat} {c : Nat} (h : c ∈ cstr buf) : c ≠ 0 := by
  have := List.mem_takeWhile_imp h
  simpa using this

theorem spec_trim_decomp (s : List Nat) :
    ∃ ws1 ws2, s = ws1 ++ (spec_trim s ++ ws2) ∧
      (∀ c ∈ ws1, isspace c = true) ∧ (∀ c ∈ ws2, isspace c = true) := by
  refine ⟨s.takeWhile isspace, ((s.dropWhile isspace).reverse.takeWhile isspace).reverse,
    ?_, ?_, ?_⟩
  · have h1 : spec_trim s ++ ((s.dropWhile isspace).reverse.takeWhile isspace).reverse
        = s.dropWhile isspace := by
      unfold spec_trim
      rw [← List.reverse_append, List.takeWhile_append_dropWhile, List.reverse_reverse]
    rw [h1, List.takeWhile_append_dropWhile]
  · intro c hc
    exact List.mem_takeWhile_imp hc
  · intro c hc
    exact List.mem_takeWhile_imp (List.mem_reverse.mp hc)

theorem dropWhile_space_append (ws t : List Nat) (h : ∀ c ∈ ws, isspace c = true) :
    (ws ++ t).dropWhile (fun c => isspace c && c != 0) =
      t.dropWhile (fun c => isspace c && c != 0) := by
  induction ws with
  | nil => rfl
  | cons x xs ih =>
    have hx : isspace x = true := h x (List.mem_cons_self _ _)
    have hx0 : x ≠ 0 := isspace_ne_zero hx
    rw [List.cons_append, List.dropWhile_cons]
    simp only [hx, hx0, bne_iff_ne, ne_eq, not_false_eq_true, Bool.and_self, if_true,
      decide_True, Bool.true_and, decide_eq_true_eq]
    exact ih (fun c hc => h c (List.mem_cons_of_mem _ hc))

theorem takeWhile_token_append (v ws : List Nat)
    (hv : ∀ c ∈ v, isspace c = false ∧ c ≠ 0) (hws : ∀ c ∈ ws, isspace c = true) :
    (v ++ ws).takeWhile (fun c => !isspace c && c != 0) = v := by
  induction v with
  | nil =>
    cases ws with
    | nil => rfl
    | cons x xs =>
      have hx : isspace x = true := hws x (List.mem_cons_self _ _)
      simp [List.takeWhile_cons, hx]
  | cons x xs ih =>
    obtain ⟨h1, h2⟩ := hv x (List.mem_cons_self _ _)
    rw [List.cons_append, List.takeWhile_cons]
    rw [ih (fun c hc => hv c (List.mem_cons_of_mem _ hc))]
    simp [h1, h2]

/-- White space around a non-empty token without white space is removed. -/
theorem strip_both_token (ws1 v ws2 : List Nat) (h1 : ∀ c ∈ ws1, isspace c = true)
    (hne : v ≠ []) (hv : ∀ c ∈ v, isspace c = false ∧ c ≠ 0)
    (h2 : ∀ c ∈ ws2, isspace c = true) :
    odmcheck_strip_both (ws1 ++ (v ++ ws2)) = some v := by
  unfold odmcheck_strip_both
  rw [dropWhile_space_append ws1 _ h1]
  cases v with
  | nil => exact absurd rfl hne
  | cons x xs =>
    obtain ⟨hx1, hx2⟩ := hv x (List.mem_cons_self _ _)
    rw [List.cons_append, List.dropWhile_cons]
    simp only [hx1, Bool.false_and, Bool.false_eq_true, if_false, hx2]
    rw [← List.cons_append, takeWhile_token_append (x :: xs) ws2 hv h2]

/-- A string of white space only (the empty string included) gives the null result. -/
theorem strip_both_space (s : List Nat) (h : ∀ c ∈ s, isspace c = true) :
    odmcheck_strip_both s = none := by
  unfold odmcheck_strip_both
  have := dropWhile_space_append s [] h
  rw [List.append_nil] at this
  rw [this]
  rfl

/-- On a string whose trimmed form is a non-empty token without white space the
function returns the trimmed form. -/
theorem strip_both_eq_trim (s : List Nat) (h0 : ∀ c ∈ s, c ≠ 0) (hne : spec_trim s ≠ [])
    (hv : ∀ c ∈ spec_trim s, isspace c = false) :
    odmcheck_strip_both s = some (spec_trim s) := by
  obtain ⟨ws1, ws2, hs, h1, h2⟩ := spec_trim_decomp s
  have hmem : ∀ c ∈ spec_trim s, isspace c = false ∧ c ≠ 0 := by
    intro c hc
    refine ⟨hv c hc, h0 c ?_⟩
    rw [hs]
    exact List.mem_append_right _ (List.mem_append_left _ hc)
  have := strip_both_token ws1 (spec_trim s) ws2 h1 hne hmem h2
  rw [← hs] at this
  exact this

/-- C5 at an input with interior white space: the function returns the first
token, not the trimmed input. -/
theorem strip_both_interior_space :
    odmcheck_strip_both (bytes "a b") = some (bytes "a") ∧
    spec_trim (bytes "a b") = bytes "a b" ∧
    odmcheck_strip_both (bytes " 8.1.0 beta\n") = some (bytes "8.1.0") ∧
    spec_trim (bytes " 8.1.0 beta\n") = bytes "8.1.0 beta" := by
  decide

/-! ### One line of the descriptor file -/

theorem strchr_split_append (c : Nat) (n v : List Nat) (h : c ∉ n) :
    strchr_split c (n ++ c :: v) = some (n, v) := by
  induction n with
  | nil => simp [strchr_split]
  | cons x xs ih =>
    have hx : x ≠ c := fun e => h (e ▸ List.mem_cons_self _ _)
    have hxs : c ∉ xs := fun e => h (List.mem_cons_of_mem _ e)
    simp [strchr_split, hx, ih hxs]

theorem strchr_split_none (c : Nat) (s : List Nat) (h : c ∉ s) : strchr_split c s = none := by
  induction s with
  | nil => rfl
  | cons x xs ih =>
    have hx : x ≠ c := fun e => h (e ▸ List.mem_cons_self _ _)
    have hxs : c ∉ xs := fun e => h (List.mem_cons_of_mem _ e)
    simp [strchr_split, hx, ih hxs]

theorem process_line_tag (line n v name value : List Nat) (info : odmcheck_version_info)
    (hline : cstr line = n ++ 61 :: v) (hfirst : 61 ∉ n)
    (hn : odmcheck_strip_both n = some name) (hv : odmcheck_strip_both v = some value) :
    process_line line info =
      if TAG_ANDROID_VERSION = name then
        { info with android_version := Field.strncpy value }
      else if TAG_ODM_REVISION = name then
        { info with odm_revision := Field.strncpy value }
      else if TAG_KERNEL_VERSION = name then
        { info with kernel_version := Field.strncpy value }
      else if TAG_PLATFORM_VERSION = name then
        { info with platform_version := Field.strncpy value }
      else info := by
  unfold process_line
  rw [hline, strchr_split_append 61 n v hfirst]
  simp only [hn, hv]

theorem process_line_skip (line n v : List Nat) (info : odmcheck_version_info)
    (hline : cstr line = n ++ 61 :: v) (hfirst : 61 ∉ n)
    (h : odmcheck_strip_both n = none ∨ odmcheck_strip_both v = none) :
    process_line line info = info := by
  unfold process_line
  rw [hline, strchr_split_append 61 n v hfirst]
  rcases h with h | h
  · simp only [h]
  · simp only [h]
    cases odmcheck_strip_both n <;> rfl

theorem process_line_no_eq (line : List Nat) (info : odmcheck_version_info)
    (h : 61 ∉ cstr line) : process_line line info = info := by
  unfold process_line
  rw [strchr_split_none 61 _ h]

theorem strncpy_val (v : List Nat) (h0 : ∀ c ∈ v, c ≠ 0) :
    (Field.strncpy v).val = padded_value v := by
  show Odmcheck.strncpy v PROPERTY_VALUE_MAX = padded_value v
  unfold Odmcheck.strncpy padded_value
  rw [cstr_eq_self v h0]
  by_cases hl : v.length ≤ PROPERTY_VALUE_MAX
  · rw [Nat.min_eq_left hl, List.take_of_length_le hl, List.take_of_length_le (le_refl _)]
  · have hl2 : PROPERTY_VALUE_MAX ≤ v.length := by omega
    rw [Nat.min_eq_right hl2]
    have : PROPERTY_VALUE_MAX - v.length = 0 := by omega
    rw [this, Nat.sub_self]

theorem tag_token :
    (∀ c ∈ TAG_ANDROID_VERSION, isspace c = false ∧ c ≠ 0) ∧
    (∀ c ∈ TAG_ODM_REVISION, isspace c = false ∧ c ≠ 0) ∧
    (∀ c ∈ TAG_KERNEL_VERSION, isspace c = false ∧ c ≠ 0) ∧
    (∀ c ∈ TAG_PLATFORM_VERSION, isspace c = false ∧ c ≠ 0) := by
  decide

/-- A name whose trimmed form is a tag is read as that tag. -/
theorem strip_both_name (n tag : List Nat) (h0 : ∀ c ∈ n, c ≠ 0)
    (htag : ∀ c ∈ tag, isspace c = false ∧ c ≠ 0) (hne : tag ≠ [])
    (h : spec_trim n = tag) : odmcheck_strip_both n = some tag := by
  subst h
  exact strip_both_eq_trim n h0 hne (fun c hc => (htag c hc).1)

/-- C6: for a line split at its first `=` whose name trims to one of the four tags
and whose value trims to a non-empty token `v` without white space, the loop
body sets the field of that tag to the first `min(|v|, PROPERTY_VALUE_MAX)`
bytes of `v` padded with NUL bytes and leaves the other three fields as they
were. The token may contain `=`. -/
theorem process_line_sets_field (line name_raw value_raw v : List Nat)
    (info : odmcheck_version_info)
    (hline : cstr line = name_raw ++ 61 :: value_raw) (hfirst : 61 ∉ name_raw)
    (hv : spec_trim value_raw = v) (hne : v ≠ []) (hws : ∀ c ∈ v, isspace c = false) :
    (spec_trim name_raw = TAG_ANDROID_VERSION →
      (process_line line info).android_version.val = padded_value v ∧
      (process_line line info).kernel_version = info.kernel_version ∧
      (process_line line info).odm_revision = info.odm_revision ∧
      (process_line line info).platform_version = info.platform_version) ∧
    (spec_trim name_raw = TAG_ODM_REVISION →
      (process_line line info).odm_revision.val = padded_value v ∧
      (process_line line info).android_version = info.android_version ∧
      (process_line line info).kernel_version = info.kernel_version ∧
      (process_line line info).platform_version = info.platform_version) ∧
    (spec_trim name_raw = TAG_KERNEL_VERSION →
      (process_line line info).kernel_version.val = padded_value v ∧
      (process_line line info).android_version = info.android_version ∧
      (process_line line info).odm_revision = info.odm_revision ∧
      (process_line line info).platform_version = info.platform_version) ∧
    (spec_trim name_raw = TAG_PLATFORM_VERSION →
      (process_line line info).platform_version.val = padded_value v ∧
      (process_line line info).android_version = info.android_version ∧
      (process_line line info).kernel_version = info.kernel_version ∧
      (process_line line info).odm_revision = info.odm_revision) := by
  have hmem : ∀ c ∈ cstr line, c ≠ 0 := fun c hc => mem_cstr_ne_zero hc
  have hn0 : ∀ c ∈ name_raw, c ≠ 0 := fun c hc =>
    hmem c (by rw [hline]; exact List.mem_append_left _ hc)
  have hv0 : ∀ c ∈ value_raw, c ≠ 0 := fun c hc =>
    hmem c (by rw [hline]; exact List.mem_append_right _ (List.mem_cons_of_mem _ hc))
  have hval : odmcheck_strip_both value_raw = some v := by
    subst hv
    exact strip_both_eq_trim value_raw hv0 hne hws
  have hvz : ∀ c ∈ v, c ≠ 0 := by
    intro c hc
    obtain ⟨ws1, ws2, hs, _, _⟩ := spec_trim_decomp value_raw
    apply hv0 c
    rw [hs, hv]
    exact List.mem_append_right _ (List.mem_append_left _ hc)
  have hpad := strncpy_val v hvz
  obtain ⟨t1, t2, t3, t4⟩ := tag_token
  refine ⟨?_, ?_, ?_, ?_⟩
  · intro ht
    have hname := strip_both_name name_raw _ hn0 t1 (by decide) ht
    rw [process_line_tag line name_raw value_raw _ v info hline hfirst hname hval]
    rw [if_pos rfl]
    exact ⟨hpad, rfl, rfl, rfl⟩
  · intro ht
    have hname := strip_both_name name_raw _ hn0 t2 (by decide) ht
    rw [process_line_tag line name_raw value_raw _ v info hline hfirst hname hval]
    rw [if_neg (by decide), if_pos rfl]
    exact ⟨hpad, rfl, rfl, rfl⟩
  · intro ht
    have hname := strip_both_name name_raw _ hn0 t3 (by decide) ht
    rw [process_line_tag line name_raw value_raw _ v info hline hfirst hname hval]
    rw [if_neg (by decide), if_neg (by decide), if_pos rfl]
    exact ⟨hpad, rfl, rfl, rfl⟩
  · intro ht
    have hname := strip_both_name name_raw _ hn0 t4 (by decide) ht
    rw [process_line_tag line name_raw value_raw _ v info hline hfirst hname hval]
    rw [if_neg (by decide), if_neg (by decide), if_neg (by decide), if_pos rfl]
    exact ⟨hpad, rfl, rfl, rfl⟩

/-- A line with white space around tag and value and `=` inside the value, and a
line whose value of 100 bytes is cut to the 92 bytes of the field. -/
theorem process_line_sets_field_witness :
    ((process_line (bytes " ro.kernel.version\t=  4.9=x \n") zeroed).kernel_version.val =
        padded_value (bytes "4.9=x") ∧
      (process_line (bytes " ro.kernel.version\t=  4.9=x \n") zeroed).android_version =
        Field.zero ∧
      (process_line (bytes " ro.kernel.version\t=  4.9=x \n") zeroed).odm_revision =
        Field.zero ∧
      (process_line (bytes " ro.kernel.version\t=  4.9=x \n") zeroed).platform_version =
        Field.zero) ∧
    (process_line (bytes "ro.build.version=" ++ List.replicate 100 65 ++ [10])
        zeroed).android_version.val = List.replicate 92 65 :=
  ⟨(process_line_sets_field (bytes " ro.kernel.version\t=  4.9=x \n")
      (bytes " ro.kernel.version\t") (bytes "  4.9=x \n") (bytes "4.9=x") zeroed
      (by decide) (by decide) (by decide) (by decide) (by decide)).2.2.1 (by decide),
   ((process_line_sets_field (bytes "ro.build.version=" ++ List.replicate 100 65 ++ [10])
      (bytes "ro.build.version") (List.replicate 100 65 ++ [10]) (List.replicate 100 65) zeroed
      (by decide) (by decide) (by decide) (by decide) (by decide)).1 (by decide)).1.trans
      (by decide)⟩

/-- C7 at a line whose name holds a tag followed by a second word: the trimmed
name is not a tag, yet the line sets `android_version`. -/
theorem process_line_name_second_word :
    spec_trim (bytes "ro.build.version x ") = bytes "ro.build.version x" ∧
    bytes "ro.build.version x" ∉
      [TAG_ANDROID_VERSION, TAG_ODM_REVISION, TAG_KERNEL_VERSION, TAG_PLATFORM_VERSION] ∧
    odmcheck_strip_both (bytes "ro.build.version x ") = some TAG_ANDROID_VERSION ∧
    (process_line (bytes "ro.build.version x = 9\n") zeroed).android_version.val =
      padded_value (bytes "9") ∧
    process_line (bytes "ro.build.version x = 9\n") zeroed ≠ zeroed := by
  decide

/-- C8: reading a descriptor file that could be opened returns 0 whatever it
contains; a line without `=`, a blank line, and a line whose name or whose
value is empty or white space only leave the record as it was. -/
theorem read_version_file_lenient :
    (∀ (content : List Nat) (info : odmcheck_version_info),
      (odmcheck_read_version_file (some content) info).1 = 0) ∧
    (∀ (line : List Nat) (info : odmcheck_version_info),
      61 ∉ cstr line → process_line line info = info) ∧
    (∀ (line : List Nat) (info : odmcheck_version_info),
      (∀ c ∈ cstr line, isspace c = true) → process_line line info = info) ∧
    (∀ (line name_raw value_raw : List Nat) (info : odmcheck_version_info),
      cstr line = name_raw ++ 61 :: value_raw → 61 ∉ name_raw →
      ((∀ c ∈ name_raw, isspace c = true) ∨ (∀ c ∈ value_raw, isspace c = true)) →
      process_line line info = info) := by
  refine ⟨fun _ _ => rfl, process_line_no_eq, ?_, ?_⟩
  · intro line info h
    apply process_line_no_eq
    intro h61
    exact absurd (h 61 h61) (by decide)
  · intro line n v info hline hfirst h
    apply process_line_skip line n v info hline hfirst
    rcases h with h | h
    · exact Or.inl (strip_both_space n h)
    · exact Or.inr (strip_both_space v h)

/-- Lines that are skipped: no `=`, blank, empty name, white-space value; and a
file of such lines is read with result 0. -/
theorem read_version_file_lenient_witness :
    (odmcheck_read_version_file (some (bytes "ro.build.version 9\n\n = 9\n")) zeroed).1 = 0 ∧
    process_line (bytes "ro.build.version 9\n") zeroed = zeroed ∧
    process_line (bytes " \t\n") zeroed = zeroed ∧
    process_line (bytes " = 9\n") zeroed = zeroed ∧
    process_line (bytes "ro.build.version = \t\n") zeroed = zeroed :=
  ⟨read_version_file_lenient.1 _ _,
   read_version_file_lenient.2.1 _ _ (by decide),
   read_version_file_lenient.2.2.1 _ _ (by decide),
   read_version_file_lenient.2.2.2 (bytes " = 9\n") (bytes " ") (bytes " 9\n") _
     (by decide) (by decide) (Or.inl (by decide)),
   read_version_file_lenient.2.2.2 (bytes "ro.build.version = \t\n")
     (bytes "ro.build.version ") (bytes " \t\n") _
     (by decide) (by decide) (Or.inr (by decide))⟩

/-! ### The whole file -/

theorem process_line_override (line : List Nat) :
    ∃ ga gk go gp : Option Field, ∀ r : odmcheck_version_info,
      process_line line r =
        ⟨ga.getD r.android_version, gk.getD r.kernel_version,
         go.getD r.odm_revision, gp.getD r.platform_version⟩ := by
  cases h : strchr_split 61 (cstr line) with
  | none => exact ⟨none, none, none, none, fun r => by simp only [process_line, h]; rfl⟩
  | some p =>
    obtain ⟨n, v⟩ := p
    cases hn : odmcheck_strip_both n with
    | none => exact ⟨none, none, none, none, fun r => by simp only [process_line, h, hn]; rfl⟩
    | some name =>
      cases hv : odmcheck_strip_both v with
      | none =>
        exact ⟨none, none, none, none, fun r => by simp only [process_line, h, hn, hv]; rfl⟩
      | some value =>
        by_cases h1 : TAG_ANDROID_VERSION = name
        · exact ⟨some (Field.strncpy value), none, none, none,
            fun r => by simp only [process_line, h, hn, hv, if_pos h1]; rfl⟩
        · by_cases h2 : TAG_ODM_REVISION = name
          · exact ⟨none, none, some (Field.strncpy value), none,
              fun r => by simp only [process_line, h, hn, hv, if_neg h1, if_pos h2]; rfl⟩
          · by_cases h3 : TAG_KERNEL_VERSION = name
            · exact ⟨none, some (Field.strncpy value), none, none,
                fun r => by
                  simp only [process_line, h, hn, hv, if_neg h1, if_neg h2, if_pos h3]; rfl⟩
            · by_cases h4 : TAG_PLATFORM_VERSION = name
              · exact ⟨none, none, none, some (Field.strncpy value),
                  fun r => by
                    simp only [process_line, h, hn, hv, if_neg h1, if_neg h2, if_neg h3,
                      if_pos h4]; rfl⟩
              · exact ⟨none, none, none, none,
                  fun r => by
                    simp only [process_line, h, hn, hv, if_neg h1, if_neg h2, if_neg h3,
                      if_neg h4]; rfl⟩

theorem read_loop_override (fuel : Nat) (s : List Nat) :
    ∃ ga gk go gp : Option Field, ∀ r : odmcheck_version_info,
      read_loop fuel s r =
        ⟨ga.getD r.android_version, gk.getD r.kernel_version,
         go.getD r.odm_revision, gp.getD r.platform_version⟩ := by
  induction fuel generalizing s with
  | zero => exact ⟨none, none, none, none, fun r => rfl⟩
  | succ k ih =>
    unfold read_loop
    cases fgets 256 s with
    | none => exact ⟨none, none, none, none, fun r => rfl⟩
    | some p =>
      obtain ⟨line, rest⟩ := p
      obtain ⟨ga, gk, go, gp, hg⟩ := process_line_override line
      obtain ⟨fa, fk, fo, fp, hf⟩ := ih rest
      refine ⟨fa.orElse (fun _ => ga), fk.orElse (fun _ => gk), fo.orElse (fun _ => go),
        fp.orElse (fun _ => gp), fun r => ?_⟩
      simp only [hg, hf]
      cases fa <;> cases fk <;> cases fo <;> cases fp <;> rfl

/-- C9: parsing is idempotent. Reading a file into the record that reading the same
file into `r` produced gives that record again, with the same return value;
in particular a second parse after a parse from the zeroed record changes
nothing, and two runs of `main` on the same descriptor file end with the same
declared record whatever else differs between them. -/
theorem read_version_file_idempotent :
    (∀ (file : Option (List Nat)) (r : odmcheck_version_info),
      odmcheck_read_version_file file (odmcheck_read_version_file file r).2 =
        odmcheck_read_version_file file r) ∧
    (∀ file : Option (List Nat),
      odmcheck_read_version_file file (odmcheck_read_version_file file zeroed).2 =
        odmcheck_read_version_file file zeroed) ∧
    (∀ e1 e2 : Env, e1.version_file = e2.version_file → (main e1).info = (main e2).info) := by
  have key : ∀ (file : Option (List Nat)) (r : odmcheck_version_info),
      odmcheck_read_version_file file (odmcheck_read_version_file file r).2 =
        odmcheck_read_version_file file r := by
    intro file r
    cases file with
    | none => rfl
    | some content =>
      obtain ⟨ga, gk, go, gp, hg⟩ := read_loop_override content.length content
      simp only [odmcheck_read_version_file, hg]
      cases ga <;> cases gk <;> cases go <;> cases gp <;> rfl
  refine ⟨key, fun file => key file zeroed, fun e1 e2 h => ?_⟩
  rw [main_info_eq, main_info_eq, h]

/-- Scenario A read twice, and two runs on the same file with different `stat`
answers and kernel banners. -/
theorem read_version_file_idempotent_witness :
    odmcheck_read_version_file (some file_A)
        (odmcheck_read_version_file (some file_A) zeroed).2 =
      odmcheck_read_version_file (some file_A) zeroed ∧
    (main (scenario file_A (fun _ => some 1))).info =
      (main { scenario file_A (fun _ => none) with proc_version := none }).info :=
  ⟨read_version_file_idempotent.1 (some file_A) zeroed,
   read_version_file_idempotent.2.2 (scenario file_A (fun _ => some 1))
     { scenario file_A (fun _ => none) with proc_version := none } rfl⟩

/-! ### Fuel of the reading loop -/

theorem fgets_take_length (k : Nat) (s : List Nat) :
    (fgets_take k s).2.length + (fgets_take k s).1.length = s.length := by
  induction s generalizing k with
  | nil => cases k <;> simp [fgets_take]
  | cons c t ih =>
    cases k with
    | zero => simp [fgets_take]
    | succ k =>
      by_cases hc : c = 10
      · simp [fgets_take, hc]
      · simp only [fgets_take, hc, if_false, List.length_cons]
        have := ih k
        omega

theorem fgets_rest_lt (s line rest : List Nat) (h : fgets 256 s = some (line, rest)) :
    rest.length < s.length := by
  cases s with
  | nil => simp [fgets] at h
  | cons c t =>
    simp only [fgets, Option.some.injEq] at h
    have h2 : rest = (fgets_take 255 (c :: t)).2 := by rw [h]
    rw [h2]
    by_cases hc : c = 10
    · simp [fgets_take, hc]
    · simp only [fgets_take, hc, if_false, List.length_cons]
      have := fgets_take_length 254 t
      omega

theorem read_loop_nil (fuel : Nat) (r : odmcheck_version_info) : read_loop fuel [] r = r := by
  cases fuel <;> rfl

theorem read_loop_succ (fuel : Nat) (s : List Nat) (r : odmcheck_version_info) :
    read_loop (fuel + 1) s r =
      match fgets 256 s with
      | none => r
      | some (line, rest) => read_loop fuel rest (process_line line r) := rfl

/-- Fuel beyond the length of the unread input changes nothing: the loop has
reached the end of the file. -/
theorem read_loop_fuel_succ (fuel : Nat) (s : List Nat) (r : odmcheck_version_info)
    (h : s.length ≤ fuel) : read_loop (fuel + 1) s r = read_loop fuel s r := by
  induction fuel generalizing s r with
  | zero =>
    have hs : s = [] := List.length_eq_zero.mp (Nat.le_zero.mp h)
    subst hs
    rfl
  | succ k ih =>
    rw [read_loop_succ (k + 1) s r, read_loop_succ k s r]
    cases hf : fgets 256 s with
    | none => rfl
    | some p =>
      obtain ⟨line, rest⟩ := p
      have := fgets_rest_lt s line rest hf
      exact ih rest _ (by omega)

theorem read_loop_fuel (fuel : Nat) (s : List Nat) (r : odmcheck_version_info)
    (h : s.length ≤ fuel) : read_loop fuel s r = read_loop s.length s r := by
  induction fuel with
  | zero =>
    have hs : s.length = 0 := Nat.le_zero.mp h
    rw [hs]
  | succ k ih =>
    by_cases hk : s.length ≤ k
    · rw [read_loop_fuel_succ k s r hk]
      exact ih hk
    · have : s.length = k + 1 := by omega
      rw [this]

/-! ### Writing a record and reading it back -/

theorem fgets_take_line (k : Nat) (body rest : List Nat) (h10 : 10 ∉ body)
    (hlen : body.length < k) :
    fgets_take k (body ++ 10 :: rest) = (body ++ [10], rest) := by
  induction body generalizing k with
  | nil =>
    cases k with
    | zero => simp at hlen
    | succ k => simp [fgets_take]
  | cons x xs ih =>
    cases k with
    | zero => simp at hlen
    | succ k =>
      have hx : x ≠ 10 := fun e => h10 (e ▸ List.mem_cons_self _ _)
      have hxs : 10 ∉ xs := fun e => h10 (List.mem_cons_of_mem _ e)
      have hl : xs.length < k := by simpa using hlen
      simp [fgets_take, hx, ih k hxs hl]

theorem fgets_line (body rest : List Nat) (h10 : 10 ∉ body) (hlen : body.length < 255) :
    fgets 256 (body ++ 10 :: rest) = some (body ++ [10], rest) := by
  have h := fgets_take_line 255 body rest h10 hlen
  cases body with
  | nil => simpa [fgets] using h
  | cons x xs => simpa [fgets] using h

theorem read_loop_written (fuel : Nat) (tag v rest : List Nat) (info : odmcheck_version_info)
    (h10 : 10 ∉ tag ++ bytes " = " ++ v) (hlen : (tag ++ bytes " = " ++ v).length < 255) :
    read_loop (fuel + 1) (write_line tag v ++ rest) info =
      read_loop fuel rest (process_line (write_line tag v) info) := by
  have e1 : write_line tag v ++ rest = (tag ++ bytes " = " ++ v) ++ 10 :: rest := by
    simp [write_line, bytes]
  have e2 : write_line tag v = (tag ++ bytes " = " ++ v) ++ [10] := by
    simp [write_line, bytes]
  rw [read_loop_succ, e1, fgets_line _ rest h10 hlen, e2]

theorem process_line_written (tag v : List Nat) (info : odmcheck_version_info)
    (ht61 : 61 ∉ tag ++ [32]) (htag : odmcheck_strip_both (tag ++ [32]) = some tag)
    (ht0 : ∀ c ∈ tag, c ≠ 0) (hne : v ≠ [])
    (hv : ∀ c ∈ v, isspace c = false ∧ c ≠ 0) :
    process_line (write_line tag v) info =
      if TAG_ANDROID_VERSION = tag then
        { info with android_version := Field.strncpy v }
      else if TAG_ODM_REVISION = tag then
        { info with odm_revision := Field.strncpy v }
      else if TAG_KERNEL_VERSION = tag then
        { info with kernel_version := Field.strncpy v }
      else if TAG_PLATFORM_VERSION = tag then
        { info with platform_version := Field.strncpy v }
      else info := by
  have e : write_line tag v = (tag ++ [32]) ++ 61 :: ([32] ++ (v ++ [10])) := by
    simp [write_line, bytes]
  have h0 : ∀ c ∈ write_line tag v, c ≠ 0 := by
    intro c hc
    rw [e] at hc
    simp only [List.mem_append, List.mem_cons, List.mem_singleton, List.not_mem_nil,
      or_false] at hc
    rcases hc with (hc | hc) | hc | hc | hc | hc
    · exact ht0 c hc
    · omega
    · omega
    · omega
    · exact (hv c hc).2
    · omega
  have hline : cstr (write_line tag v) = (tag ++ [32]) ++ 61 :: ([32] ++ (v ++ [10])) := by
    rw [cstr_eq_self _ h0, e]
  have hval : odmcheck_strip_both ([32] ++ (v ++ [10])) = some v :=
    strip_both_token [32] v [10] (by decide) hne hv (by decide)
  exact process_line_tag _ _ _ tag v info hline ht61 htag hval

theorem cstr_length_le (f : Field) : (cstr f.val).length ≤ PROPERTY_VALUE_MAX := by
  have h := (List.takeWhile_sublist (fun c => c != 0) (l := f.val)).length_le
  rw [f.property] at h
  exact h

theorem strncpy_cstr_of_padded (f : Field) (h : zero_padded f) :
    Field.strncpy (cstr f.val) = f := by
  apply Subtype.ext
  show Odmcheck.strncpy (cstr f.val) PROPERTY_VALUE_MAX = f.val
  have hlen := cstr_length_le f
  have hsplit : cstr f.val ++ f.val.dropWhile (fun c => c != 0) = f.val :=
    List.takeWhile_append_dropWhile _ _
  have hl : (f.val.dropWhile (fun c => c != 0)).length =
      PROPERTY_VALUE_MAX - (cstr f.val).length := by
    have := congrArg List.length hsplit
    rw [List.length_append, f.property] at this
    omega
  have hrep : f.val.dropWhile (fun c => c != 0) =
      List.replicate (PROPERTY_VALUE_MAX - (cstr f.val).length) 0 := by
    rw [List.eq_replicate_iff]
    exact ⟨hl, h⟩
  unfold Odmcheck.strncpy
  rw [cstr_eq_self (cstr f.val) (fun c hc => mem_cstr_ne_zero hc), List.take_of_length_le hlen,
    ← hrep, hsplit]

theorem tag_facts : ∀ tag ∈
    [TAG_ANDROID_VERSION, TAG_ODM_REVISION, TAG_KERNEL_VERSION, TAG_PLATFORM_VERSION],
    61 ∉ tag ++ [32] ∧ odmcheck_strip_both (tag ++ [32]) = some tag ∧
    (∀ c ∈ tag, c ≠ 0) ∧ 10 ∉ tag ++ bytes " = " ∧ (tag ++ bytes " = ").length ≤ 22 := by
  decide

theorem read_loop_written_tag (fuel : Nat) (tag : List Nat) (f : Field) (rest : List Nat)
    (info : odmcheck_version_info)
    (htag : tag ∈
      [TAG_ANDROID_VERSION, TAG_ODM_REVISION, TAG_KERNEL_VERSION, TAG_PLATFORM_VERSION])
    (hf : token_field f) :
    read_loop (fuel + 1) (write_line tag (cstr f.val) ++ rest) info =
      read_loop fuel rest
        (if TAG_ANDROID_VERSION = tag then
          { info with android_version := Field.strncpy (cstr f.val) }
        else if TAG_ODM_REVISION = tag then
          { info with odm_revision := Field.strncpy (cstr f.val) }
        else if TAG_KERNEL_VERSION = tag then
          { info with kernel_version := Field.strncpy (cstr f.val) }
        else if TAG_PLATFORM_VERSION = tag then
          { info with platform_version := Field.strncpy (cstr f.val) }
        else info) := by
  obtain ⟨h61, hstrip, h0, h10, hlen⟩ := tag_facts tag htag
  obtain ⟨hne, hws⟩ := hf
  have hv : ∀ c ∈ cstr f.val, isspace c = false ∧ c ≠ 0 :=
    fun c hc => ⟨hws c hc, mem_cstr_ne_zero hc⟩
  have h10v : 10 ∉ tag ++ bytes " = " ++ cstr f.val := by
    intro h
    rcases List.mem_append.mp h with h | h
    · exact h10 h
    · exact absurd (hws 10 h) (by decide)
  have hlenv : (tag ++ bytes " = " ++ cstr f.val).length < 255 := by
    have h1 := cstr_length_le f
    have h2 : PROPERTY_VALUE_MAX = 92 := rfl
    rw [List.length_append]
    omega
  rw [read_loop_written fuel tag _ rest info h10v hlenv,
    process_line_written tag _ info h61 hstrip h0 hne hv]

/-- C10, as stated, fails: the record whose `android_version` is the string " 9"
(a space, then 9) is written as `ro.build.version =  9` and read back as "9". -/
theorem round_trip_counterexample :
    ¬ (∀ r : odmcheck_version_info,
        (cstr r.android_version.val ≠ [] ∧ cstr r.kernel_version.val ≠ [] ∧
         cstr r.odm_revision.val ≠ [] ∧ cstr r.platform_version.val ≠ [] ∧
         zero_padded r.android_version ∧ zero_padded r.kernel_version ∧
         zero_padded r.odm_revision ∧ zero_padded r.platform_version) →
        (odmcheck_read_version_file (some (write_version_file r)) zeroed).2 = r) := by
  intro h
  have h2 := h (record_of (bytes " 9") (bytes "4.9") (bytes "R1") (bytes "sdm660"))
    (by unfold zero_padded; decide)
  exact absurd h2 (by decide)

/-- C10 (amended): for every record whose four fields hold non-empty strings
without white space, writing it as four lines `<tag> = <value>` and reading
that text into a zeroed record succeeds and gives in every field the same
string, NUL-padded; the record itself is reproduced when its fields are
NUL-padded. -/
theorem write_read_round_trip (r : odmcheck_version_info)
    (ha : token_field r.android_version) (hk : token_field r.kernel_version)
    (ho : token_field r.odm_revision) (hp : token_field r.platform_version) :
    odmcheck_read_version_file (some (write_version_file r)) zeroed =
      (0, record_of (cstr r.android_version.val) (cstr r.kernel_version.val)
        (cstr r.odm_revision.val) (cstr r.platform_version.val)) ∧
    (zero_padded r.android_version → zero_padded r.kernel_version →
      zero_padded r.odm_revision → zero_padded r.platform_version →
      odmcheck_read_version_file (some (write_version_file r)) zeroed = (0, r)) := by
  have hlen : ∃ k, (write_version_file r).length = k + 4 := by
    refine ⟨(write_version_file r).length - 4, ?_⟩
    simp only [write_version_file, write_line, bytes, List.length_append]
    simp
    omega
  obtain ⟨k, hk4⟩ := hlen
  have main_eq : odmcheck_read_version_file (some (write_version_file r)) zeroed =
      (0, record_of (cstr r.android_version.val) (cstr r.kernel_version.val)
        (cstr r.odm_revision.val) (cstr r.platform_version.val)) := by
    simp only [odmcheck_read_version_file, hk4]
    have e4 : write_line TAG_PLATFORM_VERSION (cstr r.platform_version.val) =
        write_line TAG_PLATFORM_VERSION (cstr r.platform_version.val) ++ [] := by simp
    unfold write_version_file
    rw [e4, read_loop_written_tag _ _ _ _ _ (by decide) ha,
      read_loop_written_tag _ _ _ _ _ (by decide) ho,
      read_loop_written_tag _ _ _ _ _ (by decide) hk,
      read_loop_written_tag _ _ _ _ _ (by decide) hp, read_loop_nil]
    have n12 : ¬ TAG_ANDROID_VERSION = TAG_ODM_REVISION := by decide
    have n13 : ¬ TAG_ANDROID_VERSION = TAG_KERNEL_VERSION := by decide
    have n14 : ¬ TAG_ANDROID_VERSION = TAG_PLATFORM_VERSION := by decide
    have n23 : ¬ TAG_ODM_REVISION = TAG_KERNEL_VERSION := by decide
    have n24 : ¬ TAG_ODM_REVISION = TAG_PLATFORM_VERSION := by decide
    have n34 : ¬ TAG_KERNEL_VERSION = TAG_PLATFORM_VERSION := by decide
    simp only [n12, n13, n14, n23, n24, n34, eq_self_iff_true, if_true, if_false]
    rfl
  refine ⟨main_eq, fun pa pk po pp => ?_⟩
  rw [main_eq]
  unfold record_of
  rw [strncpy_cstr_of_padded _ pa, strncpy_cstr_of_padded _ pk, strncpy_cstr_of_padded _ po,
    strncpy_cstr_of_padded _ pp]

/-- The record of scenario A is reproduced by writing and reading it back. -/
theorem write_read_round_trip_witness :
    odmcheck_read_version_file
        (some (write_version_file
          (record_of (bytes "9") (bytes "4.9") (bytes "R1") (bytes "sdm660")))) zeroed =
      (0, record_of (bytes "9") (bytes "4.9") (bytes "R1") (bytes "sdm660")) :=
  (write_read_round_trip (record_of (bytes "9") (bytes "4.9") (bytes "R1") (bytes "sdm660"))
    (by unfold token_field; decide) (by unfold token_field; decide)
    (by unfold token_field; decide) (by unfold token_field; decide)).2
    (by unfold zero_padded; decide) (by unfold zero_padded; decide)
    (by unfold zero_padded; decide) (by unfold zero_padded; decide)

/-! ### The verdict and the diagnostic -/

/-- C15: `main` calls the diagnostic presenter exactly when its verdict is
nonzero, that is when the file read or the build-property read failed, a
declared field is empty, or the comparator reported a difference; on a match
it is not called, and on a failure it is called once, with the two records as
they are at the end of `main`. -/
theorem display_error_iff_failure (env : Env) :
    (∀ a b, Call.display_error a b ∈ (main env).calls ↔
      ((main env).ret ≠ 0 ∧ a = (main env).info ∧ b = (main env).build_info)) ∧
    (main env).calls.count (Call.display_error (main env).info (main env).build_info) =
      (if (main env).ret = 0 then 0 else 1) ∧
    ((main env).ret ≠ 0 ↔
      ((odmcheck_read_version_file env.version_file zeroed).1 ≠ 0 ∨
       (odmcheck_read_build_prop env zeroed).1 ≠ 0 ∨
       has_empty_field (odmcheck_read_version_file env.version_file zeroed).2 ∨
       odmcheck_compare_versions (odmcheck_read_version_file env.version_file zeroed).2
         (odmcheck_read_build_prop env zeroed).2 ≠ 0)) := by
  rw [main_ret_eq, main_calls_eq, main_info_eq, main_build_info_eq, ← missing_field_iff]
  by_cases h1 : (odmcheck_read_version_file env.version_file zeroed).1 = 0
  · by_cases h2 : (odmcheck_read_build_prop env zeroed).1 = 0
    · by_cases h3 : missing_field (odmcheck_read_version_file env.version_file zeroed).2 = true
      · simp [h1, h2, h3]
      · by_cases h4 : odmcheck_compare_versions
            (odmcheck_read_version_file env.version_file zeroed).2
            (odmcheck_read_build_prop env zeroed).2 = 0
        · simp [h1, h2, h3, h4]
        · simp [h1, h2, h3, h4]
    · simp [h1, h2]
  · simp [h1]

/-- C16: the result of the mount check has no influence: two runs that differ only
in what `stat` answers have the same exit code, the same two records and the
same calls, the presenter included; only the logged value can differ. -/
theorem main_independent_of_mount :
    (∀ (env : Env) (stat : List Nat → Option Nat),
      (main { env with stat := stat }).ret = (main env).ret ∧
      (main { env with stat := stat }).info = (main env).info ∧
      (main { env with stat := stat }).build_info = (main env).build_info ∧
      (main { env with stat := stat }).calls = (main env).calls) ∧
    (main (scenario file_B (fun path => if path = ODM_DIR then some 1 else some 0))).mounted = 1 ∧
    (main (scenario file_B (fun _ => some 0))).mounted = 0 ∧
    (main (scenario file_B (fun _ => none))).mounted = 0 := by
  refine ⟨fun env stat => ⟨rfl, rfl, rfl, rfl⟩, ?_, ?_, ?_⟩ <;> decide

/-- C17: when the descriptor file cannot be opened, reading it returns -1 and
leaves the record as it was; `main` then calls neither the build-property
reader nor the comparator, hands two zeroed records to the presenter and
returns -1. -/
theorem main_file_unopenable (env : Env) (h : env.version_file = none) :
    (∀ r, odmcheck_read_version_file env.version_file r = (-1, r)) ∧
    (main env).ret = -1 ∧
    (main env).info = zeroed ∧
    (main env).build_info = zeroed ∧
    (main env).calls = [Call.display_error zeroed zeroed] ∧
    Call.read_build_prop ∉ (main env).calls ∧
    (∀ a b, Call.compare_versions a b ∉ (main env).calls) := by
  have hc : (main env).calls = [Call.display_error zeroed zeroed] := by
    rw [main_calls_eq, h]
    simp [odmcheck_read_version_file]
  refine ⟨?_, ?_, ?_, ?_, hc, ?_, ?_⟩
  · intro r
    rw [h]
    rfl
  · rw [main_ret_eq, h]
    simp [odmcheck_read_version_file]
  · rw [main_info_eq, h]
    rfl
  · rw [main_build_info_eq, h]
    simp [odmcheck_read_version_file]
  · rw [hc]
    simp
  · intro a b
    rw [hc]
    simp

/-- A run without descriptor file, all else as in scenario A. -/
theorem main_file_unopenable_witness :
    (main { scenario file_A (fun _ => some 0) with version_file := none }).ret = -1 ∧
    (main { scenario file_A (fun _ => some 0) with version_file := none }).calls =
      [Call.display_error zeroed zeroed] :=
  ⟨(main_file_unopenable { scenario file_A (fun _ => some 0) with version_file := none }
      rfl).2.1,
   (main_file_unopenable { scenario file_A (fun _ => some 0) with version_file := none }
      rfl).2.2.2.2.1⟩

/-! ### Writing strings into fields -/

theorem property_value_max_eq : PROPERTY_VALUE_MAX = 92 := rfl

theorem cstr_append_zero (s t : List Nat) (h : ∀ c ∈ s, c ≠ 0) : cstr (s ++ 0 :: t) = s := by
  unfold cstr
  induction s with
  | nil => simp
  | cons x xs ih =>
    have hx : x ≠ 0 := h x (List.mem_cons_self _ _)
    simp only [List.cons_append, List.takeWhile_cons, bne_iff_ne, ne_eq, hx,
      not_false_eq_true, if_true]
    rw [ih (fun c hc => h c (List.mem_cons_of_mem _ hc))]

theorem store_val (f : Field) (s : List Nat) (hlen : s.length < PROPERTY_VALUE_MAX) :
    (f.store s).val = s ++ 0 :: f.val.drop (s.length + 1) := by
  show store_cstr f.val s = _
  unfold store_cstr
  apply List.take_of_length_le
  have := f.property
  simp only [List.length_append, List.length_cons, List.length_drop]
  omega

theorem cstr_store (f : Field) (s : List Nat) (h0 : ∀ c ∈ s, c ≠ 0)
    (hlen : s.length < PROPERTY_VALUE_MAX) : cstr (f.store s).val = s := by
  rw [store_val f s hlen, cstr_append_zero s _ h0]

theorem first_store (f : Field) (s : List Nat) : (f.store s).first = s.headD 0 := by
  show (store_cstr f.val s).headD 0 = s.headD 0
  unfold store_cstr
  have h : f.val.length = 92 := f.property
  cases s with
  | nil =>
    rw [h]
    rfl
  | cons x xs =>
    rw [h]
    rfl

theorem first_store_ne_zero (f : Field) (s : List Nat) (hne : s ≠ [])
    (h0 : ∀ c ∈ s, c ≠ 0) : (f.store s).first ≠ 0 := by
  rw [first_store]
  cases s with
  | nil => exact absurd rfl hne
  | cons x xs => exact h0 x (List.mem_cons_self _ _)

/-! ### The property store -/

theorem property_get_snd (env : Env) (key : List Nat) (f : Field) :
    (property_get env key f).2 =
      f.store ((cstr (env.props key)).take (PROPERTY_VALUE_MAX - 1)) := rfl

theorem property_get_value (env : Env) (key : List Nat) (f : Field) :
    cstr (property_get env key f).2.val =
      (cstr (env.props key)).take (PROPERTY_VALUE_MAX - 1) := by
  rw [property_get_snd]
  apply cstr_store
  · intro c hc
    exact mem_cstr_ne_zero (List.mem_of_mem_take hc)
  · rw [List.length_take, property_value_max_eq]
    omega

theorem property_get_le_zero (env : Env) (key : List Nat) (f : Field) :
    (property_get env key f).1 ≤ 0 ↔ cstr (env.props key) = [] := by
  show (((cstr (env.props key)).take (PROPERTY_VALUE_MAX - 1)).length : Int) ≤ 0 ↔ _
  rw [List.length_take, property_value_max_eq]
  constructor
  · intro h
    apply List.length_eq_zero.mp
    omega
  · intro h
    rw [h]
    simp

theorem property_get_first (env : Env) (key : List Nat) (f : Field)
    (h : ¬ (property_get env key f).1 ≤ 0) : (property_get env key f).2.first ≠ 0 := by
  rw [property_get_le_zero] at h
  rw [property_get_snd]
  apply first_store_ne_zero
  · intro e
    apply h
    cases hc : cstr (env.props key) with
    | nil => rfl
    | cons x xs =>
      rw [hc, property_value_max_eq] at e
      simp at e
  · intro c hc
    exact mem_cstr_ne_zero (List.mem_of_mem_take hc)

/-! ### Decimal output -/

theorem digitChar_isdigit (d : Nat) (h : d < 10) : isdigit (Nat.digitChar d).toNat = true := by
  interval_cases d <;> decide

theorem toDigitsCore_isdigit (fuel n : Nat) (acc : List Char)
    (hacc : ∀ c ∈ acc, isdigit c.toNat = true) :
    ∀ c ∈ Nat.toDigitsCore 10 fuel n acc, isdigit c.toNat = true := by
  induction fuel generalizing n acc with
  | zero => exact hacc
  | succ k ih =>
    have hd : isdigit (Nat.digitChar (n % 10)).toNat = true :=
      digitChar_isdigit _ (Nat.mod_lt _ (by decide))
    have hacc2 : ∀ c ∈ Nat.digitChar (n % 10) :: acc, isdigit c.toNat = true := by
      intro c hc
      rcases List.mem_cons.mp hc with h | h
      · rw [h]; exact hd
      · exact hacc c h
    unfold Nat.toDigitsCore
    by_cases h0 : n / 10 = 0
    · simp only [h0, if_true]
      exact hacc2
    · simp only [h0, if_false]
      exact ih _ _ hacc2

theorem toDigitsCore_ne_nil (fuel n : Nat) (acc : List Char) (hacc : acc ≠ []) :
    Nat.toDigitsCore 10 fuel n acc ≠ [] := by
  induction fuel generalizing n acc with
  | zero => exact hacc
  | succ k ih =>
    unfold Nat.toDigitsCore
    by_cases h0 : n / 10 = 0
    · simp [h0]
    · simp only [h0, if_false]
      exact ih _ _ (List.cons_ne_nil _ _)

theorem repr_bytes_eq (n : Nat) : bytes (Nat.repr n) = (Nat.toDigits 10 n).map Char.toNat := rfl

theorem repr_bytes_isdigit (n : Nat) : ∀ c ∈ bytes (Nat.repr n), isdigit c = true := by
  intro c hc
  rw [repr_bytes_eq, List.mem_map] at hc
  obtain ⟨ch, hch, rfl⟩ := hc
  exact toDigitsCore_isdigit _ _ [] (fun _ h => absurd h (List.not_mem_nil _)) ch hch

theorem repr_bytes_ne_nil (n : Nat) : bytes (Nat.repr n) ≠ [] := by
  rw [repr_bytes_eq]
  intro h
  have h2 := List.map_eq_nil_iff.mp h
  unfold Nat.toDigits Nat.toDigitsCore at h2
  by_cases h0 : n / 10 = 0
  · simp [h0] at h2
  · simp only [h0, if_false] at h2
    exact toDigitsCore_ne_nil _ _ _ (List.cons_ne_nil _ _) h2

theorem repr_bytes_length (n : Nat) (h : n < 10 ^ 10) : (bytes (Nat.repr n)).length ≤ 10 := by
  have h10 : (Nat.repr n).length ≤ 10 := Nat.repr_length n 10 (Nat.succ_pos 9) h
  show ((Nat.repr n).data.map Char.toNat).length ≤ 10
  rw [List.length_map]
  exact h10

theorem isdigit_ne_zero {c : Nat} (h : isdigit c = true) : c ≠ 0 := by
  rintro rfl
  simp [isdigit] at h

theorem print_d_ne_nil (v : Int) : print_d v ≠ [] := by
  unfold print_d
  split
  · exact List.cons_ne_nil _ _
  · exact repr_bytes_ne_nil _

theorem print_d_ne_zero (v : Int) : ∀ c ∈ print_d v, c ≠ 0 := by
  intro c hc
  unfold print_d at hc
  split at hc
  · rcases List.mem_cons.mp hc with h | h
    · omega
    · exact isdigit_ne_zero (repr_bytes_isdigit _ c h)
  · exact isdigit_ne_zero (repr_bytes_isdigit _ c hc)

theorem print_d_length (v : Int) (h1 : -(2 ^ 31) ≤ v) (h2 : v < 2 ^ 31) :
    (print_d v).length ≤ 11 := by
  have hb : v.natAbs < 10 ^ 10 := by omega
  have := repr_bytes_length v.natAbs hb
  unfold print_d
  split
  · simp only [List.length_cons]
    omega
  · omega

theorem print_d_nonneg (v : Int) (h : 0 ≤ v) : print_d v = bytes (Nat.repr v.toNat) := by
  unfold print_d
  have : ¬ v < 0 := by omega
  rw [if_neg this]
  congr 2
  omega

theorem to_int_range (v : Int) : -(2 ^ 31) ≤ to_int v ∧ to_int v < 2 ^ 31 := by
  unfold to_int
  omega

theorem to_int_of_range (v : Int) (h1 : -(2 ^ 31) ≤ v) (h2 : v < 2 ^ 31) : to_int v = v := by
  unfold to_int
  omega

/-! ### The kernel banner -/

theorem banner_format_eq :
    banner_format =
      (bytes "Linux").map Directive.lit ++ Directive.ws ::
        ((bytes "version").map Directive.lit ++ Directive.ws ::
          [Directive.int, Directive.lit 46, Directive.int, Directive.lit 46,
           Directive.int, Directive.lit 45]) := by
  decide

theorem get_kernel_version_eq (env : Env) (kv : Field) :
    odmcheck_get_kernel_version env kv =
      match kernel_text env with
      | none => (-1, kv)
      | some t => (0, kv.store t) := by
  unfold odmcheck_get_kernel_version kernel_text
  cases env.proc_version with
  | none => rfl
  | some content =>
    dsimp only
    cases fgets 256 content with
    | none => rfl
    | some p =>
      obtain ⟨line, rest⟩ := p
      dsimp only [banner_version]
      generalize sscanf (parse_format (bytes "Linux version %d.%d.%d-")) (cstr line) = l
      match l with
      | [] => rfl
      | [_] => rfl
      | [_, _] => rfl
      | [_, _, _] => rfl
      | _ :: _ :: _ :: _ :: _ => rfl

theorem sscanf_lits (cs : List Nat) (fmt : List Directive) (s : List Nat) :
    sscanf (cs.map Directive.lit ++ fmt) (cs ++ s) = sscanf fmt s := by
  induction cs with
  | nil => rfl
  | cons c cs ih => simp [sscanf, ih]

theorem sscanf_lits_inv (cs : List Nat) (fmt : List Directive) (s : List Nat)
    (h : sscanf (cs.map Directive.lit ++ fmt) s ≠ []) :
    ∃ t, s = cs ++ t ∧ sscanf (cs.map Directive.lit ++ fmt) s = sscanf fmt t := by
  induction cs generalizing s with
  | nil => exact ⟨s, rfl, rfl⟩
  | cons c cs ih =>
    cases s with
    | nil => simp [sscanf] at h
    | cons x t =>
      by_cases hx : x = c
      · subst hx
        simp only [List.map_cons, List.cons_append, sscanf, if_true] at h ⊢
        obtain ⟨u, hu, he⟩ := ih t h
        exact ⟨u, by rw [hu], he⟩
      · simp [sscanf, hx] at h

theorem sscanf_ws (fmt : List Directive) (s : List Nat) :
    sscanf (Directive.ws :: fmt) s = sscanf fmt (s.dropWhile isspace) := rfl

theorem sscanf_int (fmt : List Directive) (s : List Nat) :
    sscanf (Directive.int :: fmt) s =
      match scan_d s with
      | none => []
      | some (v, t) => v :: sscanf fmt t := rfl

theorem isdigit_not_space {c : Nat} (h : isdigit c = true) : isspace c = false := by
  simp only [isdigit, Bool.and_eq_true, decide_eq_true_eq] at h
  simp only [isspace, Bool.or_eq_false_iff, beq_eq_false_iff_ne, ne_eq, Bool.and_eq_false_imp,
    decide_eq_true_eq, decide_eq_false_iff_not]
  omega

theorem span_front (p : Nat → Bool) (l r : List Nat) (hl : ∀ c ∈ l, p c = true)
    (hr : ∀ c, r.head? = some c → p c = false) :
    (l ++ r).takeWhile p = l ∧ (l ++ r).dropWhile p = r := by
  induction l with
  | nil =>
    cases r with
    | nil => exact ⟨rfl, rfl⟩
    | cons x xs =>
      have hx : p x = false := hr x rfl
      simp [List.takeWhile_cons, List.dropWhile_cons, hx]
  | cons x xs ih =>
    have hx : p x = true := hl x (List.mem_cons_self _ _)
    obtain ⟨h1, h2⟩ := ih (fun c hc => hl c (List.mem_cons_of_mem _ hc))
    simp [List.takeWhile_cons, List.dropWhile_cons, hx, h1, h2]

theorem sign_split (s1 : List Nat) :
    ∃ sg, s1 = sg ++ (if (s1.head? == some 45 || s1.head? == some 43) = true
        then s1.drop 1 else s1) ∧ (sg = [] ∨ sg = [45] ∨ sg = [43]) := by
  cases s1 with
  | nil => exact ⟨[], by simp, Or.inl rfl⟩
  | cons x xs =>
    by_cases h45 : x = 45
    · subst h45
      exact ⟨[45], by simp, Or.inr (Or.inl rfl)⟩
    · by_cases h43 : x = 43
      · subst h43
        exact ⟨[43], by simp, Or.inr (Or.inr rfl)⟩
      · exact ⟨[], by simp [h45, h43], Or.inl rfl⟩

theorem scan_d_of (l ds rest : List Nat) (h1 : l.dropWhile isspace = l)
    (hsg : (l.head? == some 45 || l.head? == some 43) = false)
    (ht : l.takeWhile isdigit = ds) (hdr : l.dropWhile isdigit = rest) (hne : ds ≠ []) :
    scan_d l = some (to_int (digits_val ds), rest) := by
  have hng : (l.head? == some 45) = false := (Bool.or_eq_false_iff.mp hsg).1
  unfold scan_d
  dsimp only
  rw [h1, hsg, hng]
  simp only [Bool.false_eq_true, if_false, ht, hdr, hne]

/-- The directive `%d` on a run of digits that ends before `rest`. -/
theorem scan_d_digits (ds rest : List Nat) (hne : ds ≠ [])
    (hd : ∀ c ∈ ds, isdigit c = true) (hrest : ∀ c, rest.head? = some c → isdigit c = false) :
    scan_d (ds ++ rest) = some (to_int (digits_val ds), rest) := by
  obtain ⟨ht, hdr⟩ := span_front isdigit ds rest hd hrest
  cases ds with
  | nil => exact absurd rfl hne
  | cons d ds' =>
    have hdig : isdigit d = true := hd d (List.mem_cons_self _ _)
    have hsp : isspace d = false := isdigit_not_space hdig
    have h45 : d ≠ 45 := by rintro rfl; simp [isdigit] at hdig
    have h43 : d ≠ 43 := by rintro rfl; simp [isdigit] at hdig
    apply scan_d_of _ _ _ _ _ ht hdr hne
    · simp [List.dropWhile_cons, hsp]
    · simp [h45, h43]

theorem scan_d_inv (s t : List Nat) (v : Int) (h : scan_d s = some (v, t)) :
    (∃ n, s = n ++ t ∧ scanf_number n) ∧ -(2 ^ 31) ≤ v ∧ v < 2 ^ 31 := by
  obtain ⟨sg, hsg, hsign⟩ := sign_split (s.dropWhile isspace)
  unfold scan_d at h
  dsimp only at h
  generalize hs2 : (if ((s.dropWhile isspace).head? == some 45
      || (s.dropWhile isspace).head? == some 43) = true
      then (s.dropWhile isspace).drop 1 else s.dropWhile isspace) = s2 at h hsg
  by_cases hds : s2.takeWhile isdigit = []
  · rw [if_pos hds] at h
    exact absurd h (by simp)
  · rw [if_neg hds] at h
    simp only [Option.some.injEq, Prod.mk.injEq] at h
    obtain ⟨hv, ht⟩ := h
    refine ⟨⟨s.takeWhile isspace ++ (sg ++ s2.takeWhile isdigit), ?_,
      s.takeWhile isspace, sg, s2.takeWhile isdigit, rfl,
      fun c hc => List.mem_takeWhile_imp hc, hsign, hds,
      fun c hc => List.mem_takeWhile_imp hc⟩, ?_⟩
    · rw [← ht, List.append_assoc, List.append_assoc, List.takeWhile_append_dropWhile, ← hsg,
        List.takeWhile_append_dropWhile]
    · rw [← hv]
      exact to_int_range _

theorem dropWhile_space_digits (ds rest : List Nat) (hne : ds ≠ [])
    (hd : ∀ c ∈ ds, isdigit c = true) :
    (ds ++ rest).dropWhile isspace = ds ++ rest := by
  cases ds with
  | nil => exact absurd rfl hne
  | cons d ds' =>
    have hsp : isspace d = false := isdigit_not_space (hd d (List.mem_cons_self _ _))
    simp [List.dropWhile_cons, hsp]

theorem sscanf_banner_head (s : List Nat) :
    sscanf banner_format (bytes "Linux version " ++ s) =
      sscanf [Directive.int, Directive.lit 46, Directive.int, Directive.lit 46,
        Directive.int, Directive.lit 45] (s.dropWhile isspace) := by
  have e1 : bytes "Linux version " ++ s = bytes "Linux" ++ (32 :: (bytes "version" ++ 32 :: s)) :=
    rfl
  have e2 : (32 :: (bytes "version" ++ 32 :: s)).dropWhile isspace = bytes "version" ++ 32 :: s :=
    rfl
  have e3 : (32 :: s).dropWhile isspace = s.dropWhile isspace := rfl
  rw [banner_format_eq, e1, sscanf_lits, sscanf_ws, e2, sscanf_lits, sscanf_ws, e3]

/-- The three conversions on `M.N.P-`: the values of the three runs of digits. -/
theorem sscanf_banner_digits (M N P tail : List Nat)
    (hM : M ≠ [] ∧ ∀ c ∈ M, isdigit c = true) (hN : N ≠ [] ∧ ∀ c ∈ N, isdigit c = true)
    (hP : P ≠ [] ∧ ∀ c ∈ P, isdigit c = true) :
    sscanf banner_format
        (bytes "Linux version " ++ (M ++ 46 :: (N ++ 46 :: (P ++ 45 :: tail)))) =
      [to_int (digits_val M), to_int (digits_val N), to_int (digits_val P)] := by
  have hdot : ∀ (r : List Nat) (c : Nat), (46 :: r).head? = some c → isdigit c = false := by
    intro r c hc
    simp only [List.head?_cons, Option.some.injEq] at hc
    subst hc
    decide
  have hdash : ∀ (r : List Nat) (c : Nat), (45 :: r).head? = some c → isdigit c = false := by
    intro r c hc
    simp only [List.head?_cons, Option.some.injEq] at hc
    subst hc
    decide
  rw [sscanf_banner_head, dropWhile_space_digits M _ hM.1 hM.2, sscanf_int,
    scan_d_digits M _ hM.1 hM.2 (hdot _)]
  simp only [sscanf, if_true]
  rw [scan_d_digits N _ hN.1 hN.2 (hdot _)]
  simp only [sscanf, if_true]
  rw [scan_d_digits P _ hP.1 hP.2 (hdash _)]
  simp

theorem banner_version_digits (line M N P tail : List Nat)
    (hshape : cstr line =
      bytes "Linux version " ++ (M ++ 46 :: (N ++ 46 :: (P ++ 45 :: tail))))
    (hM : M ≠ [] ∧ ∀ c ∈ M, isdigit c = true) (hN : N ≠ [] ∧ ∀ c ∈ N, isdigit c = true)
    (hP : P ≠ [] ∧ ∀ c ∈ P, isdigit c = true) :
    banner_version line =
      some (print_d (to_int (digits_val M)) ++ 46 :: print_d (to_int (digits_val N))) := by
  unfold banner_version
  have h := sscanf_banner_digits M N P tail hM hN hP
  unfold banner_format at h
  rw [hshape, h]

theorem kernel_text_eq (env : Env) (content line rest : List Nat)
    (hfile : env.proc_version = some content) (hline : fgets 256 content = some (line, rest)) :
    kernel_text env = banner_version line := by
  unfold kernel_text
  rw [hfile]
  dsimp only
  rw [hline]

/-! ### The banner inside the file -/

theorem fgets_take_front (k : Nat) (p tail : List Nat) (h10 : 10 ∉ p) (hlen : p.length ≤ k) :
    (fgets_take k (p ++ tail)).1 = p ++ (fgets_take (k - p.length) tail).1 := by
  induction p generalizing k with
  | nil => rfl
  | cons x xs ih =>
    cases k with
    | zero => simp at hlen
    | succ k =>
      have hx : x ≠ 10 := fun e => h10 (e ▸ List.mem_cons_self _ _)
      have hxs : 10 ∉ xs := fun e => h10 (List.mem_cons_of_mem _ e)
      have hl : xs.length ≤ k := by simpa using hlen
      simp [fgets_take, hx, ih k hxs hl]

theorem cstr_append_front (p x : List Nat) (h0 : ∀ c ∈ p, c ≠ 0) :
    cstr (p ++ x) = p ++ cstr x := by
  unfold cstr
  induction p with
  | nil => rfl
  | cons c cs ih =>
    have hc : c ≠ 0 := h0 c (List.mem_cons_self _ _)
    simp only [List.cons_append, List.takeWhile_cons, bne_iff_ne, ne_eq, hc, not_false_eq_true,
      if_true]
    rw [ih (fun d hd => h0 d (List.mem_cons_of_mem _ hd))]

/-- The banner at the start of `/proc/version`: when the text up to the `-` behind
the micro version fits into the 255 bytes `fgets` reads, the line read has the
shape `Linux version M.N.P-` whatever follows, and major and minor are
written. -/
theorem kernel_version_of_content (env : Env) (M N P tail : List Nat) (kv : Field)
    (hfile : env.proc_version =
      some (bytes "Linux version " ++ (M ++ 46 :: (N ++ 46 :: (P ++ 45 :: tail)))))
    (hM : M ≠ [] ∧ ∀ c ∈ M, isdigit c = true) (hN : N ≠ [] ∧ ∀ c ∈ N, isdigit c = true)
    (hP : P ≠ [] ∧ ∀ c ∈ P, isdigit c = true)
    (hfit : M.length + N.length + P.length + 17 ≤ 255) :
    odmcheck_get_kernel_version env kv =
      (0, kv.store (print_d (to_int (digits_val M)) ++ 46 :: print_d (to_int (digits_val N)))) := by
  have hd0 : ∀ D : List Nat, (∀ c ∈ D, isdigit c = true) → ∀ c ∈ D, c ≠ 0 ∧ c ≠ 10 := by
    intro D hD c hc
    have h := hD c hc
    simp only [isdigit, Bool.and_eq_true, decide_eq_true_eq] at h
    omega
  have hpre : ∀ c ∈ bytes "Linux version ", c ≠ 0 ∧ c ≠ 10 := by decide
  have hall : ∀ c ∈ bytes "Linux version " ++ (M ++ 46 :: (N ++ 46 :: (P ++ [45]))),
      c ≠ 0 ∧ c ≠ 10 := by
    intro c hc
    simp only [List.mem_append, List.mem_cons, List.mem_singleton, List.not_mem_nil,
      or_false] at hc
    rcases hc with h | h | h | h | h | h | h
    · exact hpre c h
    · exact hd0 M hM.2 c h
    · omega
    · exact hd0 N hN.2 c h
    · omega
    · exact hd0 P hP.2 c h
    · omega
  have esplit : bytes "Linux version " ++ (M ++ 46 :: (N ++ 46 :: (P ++ 45 :: tail))) =
      (bytes "Linux version " ++ (M ++ 46 :: (N ++ 46 :: (P ++ [45])))) ++ tail := by
    simp
  have hlen : (bytes "Linux version " ++ (M ++ 46 :: (N ++ 46 :: (P ++ [45])))).length ≤ 255 := by
    have : (bytes "Linux version ").length = 14 := by decide
    simp only [List.length_append, List.length_cons, List.length_nil, this]
    omega
  have hline : fgets 256
      (bytes "Linux version " ++ (M ++ 46 :: (N ++ 46 :: (P ++ 45 :: tail)))) =
      some ((fgets_take 255
        (bytes "Linux version " ++ (M ++ 46 :: (N ++ 46 :: (P ++ 45 :: tail))))).1,
        (fgets_take 255
        (bytes "Linux version " ++ (M ++ 46 :: (N ++ 46 :: (P ++ 45 :: tail))))).2) := rfl
  have hshape : cstr (fgets_take 255
      (bytes "Linux version " ++ (M ++ 46 :: (N ++ 46 :: (P ++ 45 :: tail))))).1 =
      bytes "Linux version " ++ (M ++ 46 :: (N ++ 46 :: (P ++ 45 ::
        cstr (fgets_take (255 - (bytes "Linux version " ++
          (M ++ 46 :: (N ++ 46 :: (P ++ [45])))).length) tail).1))) := by
    rw [esplit, fgets_take_front 255 _ tail (fun h => (hall 10 h).2 rfl) hlen,
      cstr_append_front _ _ (fun c hc => (hall c hc).1)]
    simp
  rw [get_kernel_version_eq, kernel_text_eq env _ _ _ hfile hline,
    banner_version_digits _ M N P _ hshape hM hN hP]

/-- C11: when the first line read from `/proc/version` begins with
`Linux version M.N.P-`, where `M`, `N` and `P` are non-empty runs of digits
whose values fit an `int`, the function returns 0 and writes the decimal value
of `M`, a dot and the decimal value of `N`, and nothing else; neither `P` nor
the text behind it occurs in the result. -/
theorem kernel_version_major_minor (env : Env) (content line rest M N P tail : List Nat)
    (kv : Field)
    (hfile : env.proc_version = some content) (hline : fgets 256 content = some (line, rest))
    (hshape : cstr line =
      bytes "Linux version " ++ (M ++ 46 :: (N ++ 46 :: (P ++ 45 :: tail))))
    (hM : M ≠ [] ∧ ∀ c ∈ M, isdigit c = true) (hN : N ≠ [] ∧ ∀ c ∈ N, isdigit c = true)
    (hP : P ≠ [] ∧ ∀ c ∈ P, isdigit c = true)
    (hMv : digits_val M < 2 ^ 31) (hNv : digits_val N < 2 ^ 31) (_hPv : digits_val P < 2 ^ 31) :
    odmcheck_get_kernel_version env kv =
      (0, kv.store (bytes (Nat.repr (digits_val M)) ++ 46 :: bytes (Nat.repr (digits_val N)))) ∧
    cstr (odmcheck_get_kernel_version env kv).2.val =
      bytes (Nat.repr (digits_val M)) ++ 46 :: bytes (Nat.repr (digits_val N)) := by
  have hm : print_d (to_int (digits_val M)) = bytes (Nat.repr (digits_val M)) := by
    rw [to_int_of_range _ (by omega) (by omega), print_d_nonneg _ (by omega)]
    rfl
  have hn : print_d (to_int (digits_val N)) = bytes (Nat.repr (digits_val N)) := by
    rw [to_int_of_range _ (by omega) (by omega), print_d_nonneg _ (by omega)]
    rfl
  have hres : odmcheck_get_kernel_version env kv =
      (0, kv.store (bytes (Nat.repr (digits_val M)) ++ 46 :: bytes (Nat.repr (digits_val N)))) := by
    rw [get_kernel_version_eq, kernel_text_eq env content line rest hfile hline,
      banner_version_digits line M N P tail hshape hM hN hP, hm, hn]
  refine ⟨hres, ?_⟩
  rw [hres]
  apply cstr_store
  · intro c hc
    rcases List.mem_append.mp hc with h | h
    · exact isdigit_ne_zero (repr_bytes_isdigit _ c h)
    · rcases List.mem_cons.mp h with h | h
      · omega
      · exact isdigit_ne_zero (repr_bytes_isdigit _ c h)
  · have h1 := repr_bytes_length (digits_val M) (by omega)
    have h2 := repr_bytes_length (digits_val N) (by omega)
    rw [List.length_append, List.length_cons, property_value_max_eq]
    omega

/-- Scenario D: the banner `Linux version 4.9.117-foo` gives exactly `4.9`; so does
a banner with leading zeros and another micro version. -/
theorem kernel_version_major_minor_witness :
    cstr (odmcheck_get_kernel_version
      { scenario_E with proc_version := some (bytes "Linux version 4.9.117-foo") }
      Field.zero).2.val = bytes "4.9" ∧
    cstr (odmcheck_get_kernel_version
      { scenario_E with proc_version := some (bytes "Linux version 04.009.3-bar (gcc)\n#1") }
      Field.zero).2.val = bytes "4.9" :=
  ⟨(kernel_version_major_minor
      { scenario_E with proc_version := some (bytes "Linux version 4.9.117-foo") }
      (bytes "Linux version 4.9.117-foo") (bytes "Linux version 4.9.117-foo") []
      (bytes "4") (bytes "9") (bytes "117") (bytes "foo") Field.zero rfl (by decide) (by decide)
      (by decide) (by decide) (by decide) (by decide) (by decide) (by decide)).2,
   (kernel_version_major_minor
      { scenario_E with proc_version := some (bytes "Linux version 04.009.3-bar (gcc)\n#1") }
      (bytes "Linux version 04.009.3-bar (gcc)\n#1") (bytes "Linux version 04.009.3-bar (gcc)\n")
      (bytes "#1")
      (bytes "04") (bytes "009") (bytes "3") (bytes "bar (gcc)\n") Field.zero rfl (by decide)
      (by decide) (by decide) (by decide) (by decide) (by decide) (by decide) (by decide)).2⟩

theorem sscanf_int_inv (fmt : List Directive) (s : List Nat) (v : Int) (vs : List Int)
    (h : sscanf (Directive.int :: fmt) s = v :: vs) :
    ∃ n t, s = n ++ t ∧ scanf_number n ∧ sscanf fmt t = vs := by
  rw [sscanf_int] at h
  cases hs : scan_d s with
  | none =>
    rw [hs] at h
    exact absurd h (by simp)
  | some p =>
    obtain ⟨w, t⟩ := p
    rw [hs] at h
    simp only [List.cons.injEq] at h
    obtain ⟨⟨n, hn, hnum⟩, _⟩ := scan_d_inv s t w hs
    exact ⟨n, t, hn, hnum, h.2⟩

theorem sscanf_dot_inv (fmt : List Directive) (s : List Nat) (vs : List Int)
    (hne : vs ≠ []) (h : sscanf (Directive.lit 46 :: fmt) s = vs) :
    ∃ t, s = 46 :: t ∧ sscanf fmt t = vs := by
  have h2 : sscanf ([46].map Directive.lit ++ fmt) s ≠ [] := by
    show sscanf (Directive.lit 46 :: fmt) s ≠ []
    rw [h]
    exact hne
  obtain ⟨t, ht, he⟩ := sscanf_lits_inv [46] fmt s h2
  refine ⟨t, ht, ?_⟩
  rw [← he]
  exact h

/-- A line on which the three conversions succeed has the shape the format
accepts. -/
theorem banner_version_shape (line t : List Nat) (h : banner_version line = some t) :
    banner_shape (cstr line) := by
  unfold banner_version at h
  have hl : ∃ a b c, sscanf banner_format (cstr line) = [a, b, c] := by
    unfold banner_format
    generalize sscanf (parse_format (bytes "Linux version %d.%d.%d-")) (cstr line) = l at h
    match l, h with
    | [a, b, c], _ => exact ⟨a, b, c, rfl⟩
  obtain ⟨a, b, c, hl⟩ := hl
  rw [banner_format_eq] at hl
  obtain ⟨t1, ht1, he1⟩ := sscanf_lits_inv (bytes "Linux") _ (cstr line) (by rw [hl]; simp)
  rw [he1, sscanf_ws] at hl
  obtain ⟨t2, ht2, he2⟩ := sscanf_lits_inv (bytes "version") _ (t1.dropWhile isspace)
    (by rw [hl]; simp)
  rw [he2, sscanf_ws] at hl
  obtain ⟨n1, t3, hn1, hnum1, hl⟩ := sscanf_int_inv _ _ _ _ hl
  obtain ⟨t4, ht4, hl⟩ := sscanf_dot_inv _ _ _ (by simp) hl
  obtain ⟨n2, t5, hn2, hnum2, hl⟩ := sscanf_int_inv _ _ _ _ hl
  obtain ⟨t6, ht6, hl⟩ := sscanf_dot_inv _ _ _ (by simp) hl
  obtain ⟨n3, t7, hn3, hnum3, _⟩ := sscanf_int_inv _ _ _ _ hl
  refine ⟨t1.takeWhile isspace, t2.takeWhile isspace, n1, n2, n3, t7, ?_,
    fun c hc => List.mem_takeWhile_imp hc, fun c hc => List.mem_takeWhile_imp hc,
    hnum1, hnum2, hnum3⟩
  rw [← hn3, ← ht6, ← hn2, ← ht4, ← hn1, List.takeWhile_append_dropWhile, ← ht2,
    List.takeWhile_append_dropWhile, ← ht1]

/-- C12, as stated, fails: the first line `Linux version +4. 9.117-x` carries a
sign and extra white space, so it does not match the pattern of digits, yet the
function returns 0 and writes `4.9`. -/
theorem kernel_version_sign_counterexample :
    ¬ (∀ (env : Env) (kv : Field) (content line rest : List Nat),
        env.proc_version = some content → fgets 256 content = some (line, rest) →
        ¬ spec_banner_pattern (cstr line) →
        odmcheck_get_kernel_version env kv = (-1, kv)) := by
  intro h
  have hno : ¬ spec_banner_pattern (cstr (bytes "Linux version +4. 9.117-x\n")) := by
    rintro ⟨major, minor, micro, rest, hline, ⟨hne, hdig⟩, _, _⟩
    cases major with
    | nil => exact hne rfl
    | cons d ds =>
      have e1 : cstr (bytes "Linux version +4. 9.117-x\n") =
          bytes "Linux version " ++ (43 :: bytes "4. 9.117-x\n") := by decide
      rw [e1] at hline
      have h2 := List.append_cancel_left hline
      simp only [List.cons_append, List.cons.injEq] at h2
      have h3 := hdig d (List.mem_cons_self _ _)
      rw [← h2.1] at h3
      exact absurd h3 (by decide)
  have h2 := h { scenario_E with proc_version := some (bytes "Linux version +4. 9.117-x\n") }
    Field.zero (bytes "Linux version +4. 9.117-x\n") (bytes "Linux version +4. 9.117-x\n") []
    rfl (by decide) hno
  exact absurd h2 (by decide)

/-- C12 (amended): when the first line read from `/proc/version` is not of the
shape `Linux`, white space, `version`, white space and three numbers separated
by dots, a number being white space, an optional sign and a non-empty run of
digits, the function returns -1 and leaves the field as it was; and whenever
the function fails it returns -1 and leaves the field as it was. -/
theorem kernel_version_fails (env : Env) (kv : Field) :
    (∀ content line rest : List Nat,
      env.proc_version = some content → fgets 256 content = some (line, rest) →
      ¬ banner_shape (cstr line) →
      odmcheck_get_kernel_version env kv = (-1, kv)) ∧
    ((odmcheck_get_kernel_version env kv).1 ≠ 0 →
      odmcheck_get_kernel_version env kv = (-1, kv)) := by
  constructor
  · intro content line rest hfile hline hshape
    rw [get_kernel_version_eq, kernel_text_eq env content line rest hfile hline]
    cases hb : banner_version line with
    | none => rfl
    | some t => exact absurd (banner_version_shape line t hb) hshape
  · intro h
    rw [get_kernel_version_eq] at h ⊢
    cases hk : kernel_text env with
    | none => rfl
    | some t =>
      rw [hk] at h
      exact absurd rfl h

/-- A banner that does not start with `Linux` is rejected and the field keeps
its content. -/
theorem kernel_version_fails_witness :
    odmcheck_get_kernel_version
        { scenario_E with proc_version := some (bytes "BSD version 4.9.117-x\n") }
        (Field.strncpy (bytes "old")) = (-1, Field.strncpy (bytes "old")) :=
  (kernel_version_fails
      { scenario_E with proc_version := some (bytes "BSD version 4.9.117-x\n") }
      (Field.strncpy (bytes "old"))).1
    (bytes "BSD version 4.9.117-x\n") (bytes "BSD version 4.9.117-x\n") [] rfl (by decide)
    (by
      rintro ⟨w1, w2, n1, n2, n3, rest, hline, _⟩
      have e1 : cstr (bytes "BSD version 4.9.117-x\n") = 66 :: bytes "SD version 4.9.117-x\n" := by
        decide
      have e2 : bytes "Linux" = 76 :: bytes "inux" := by decide
      rw [e1, e2] at hline
      simp only [List.cons_append, List.cons.injEq] at hline
      exact absurd hline.1 (by decide))

/-! ### The build properties -/

theorem property_get_eq (env : Env) (key : List Nat) (f : Field) :
    property_get env key f =
      (((property_value env key).length : Int), f.store (property_value env key)) := rfl

theorem property_value_facts (env : Env) (key : List Nat) :
    (∀ c ∈ property_value env key, c ≠ 0) ∧ (property_value env key).length < PROPERTY_VALUE_MAX := by
  constructor
  · intro c hc
    exact mem_cstr_ne_zero (List.mem_of_mem_take hc)
  · unfold property_value
    rw [List.length_take, property_value_max_eq]
    omega

theorem property_value_eq_nil (env : Env) (key : List Nat) :
    property_value env key = [] ↔ cstr (env.props key) = [] := by
  unfold property_value
  rw [property_value_max_eq]
  cases cstr (env.props key) <;> simp

theorem sscanf_range (fmt : List Directive) (s : List Nat) :
    ∀ v ∈ sscanf fmt s, -(2 ^ 31) ≤ v ∧ v < 2 ^ 31 := by
  induction fmt generalizing s with
  | nil => intro v hv; simp [sscanf] at hv
  | cons d fmt ih =>
    cases d with
    | lit c =>
      cases s with
      | nil => intro v hv; simp [sscanf] at hv
      | cons x t =>
        by_cases hx : x = c
        · intro v hv
          simp only [sscanf, hx, if_true] at hv
          exact ih t v hv
        · intro v hv
          simp [sscanf, hx] at hv
    | ws =>
      intro v hv
      exact ih _ v hv
    | int =>
      intro v hv
      rw [sscanf_int] at hv
      cases hs : scan_d s with
      | none => rw [hs] at hv; simp at hv
      | some p =>
        obtain ⟨w, t⟩ := p
        rw [hs] at hv
        rcases List.mem_cons.mp hv with h | h
        · rw [h]
          exact (scan_d_inv s t w hs).2
        · exact ih t v h

theorem banner_version_facts (line t : List Nat) (h : banner_version line = some t) :
    t ≠ [] ∧ (∀ c ∈ t, c ≠ 0) ∧ t.length < PROPERTY_VALUE_MAX := by
  unfold banner_version at h
  have hr := sscanf_range (parse_format (bytes "Linux version %d.%d.%d-")) (cstr line)
  generalize sscanf (parse_format (bytes "Linux version %d.%d.%d-")) (cstr line) = l at h hr
  match l, h, hr with
  | [a, b, c], h, hr =>
    simp only [Option.some.injEq] at h
    subst h
    have ha := hr a (by simp)
    have hb := hr b (by simp)
    refine ⟨?_, ?_, ?_⟩
    · intro e
      exact print_d_ne_nil a (List.append_eq_nil.mp e).1
    · intro x hx
      rcases List.mem_append.mp hx with h | h
      · exact print_d_ne_zero a x h
      · rcases List.mem_cons.mp h with h | h
        · omega
        · exact print_d_ne_zero b x h
    · have h1 := print_d_length a ha.1 ha.2
      have h2 := print_d_length b hb.1 hb.2
      rw [List.length_append, List.length_cons, property_value_max_eq]
      omega

theorem kernel_text_facts (env : Env) (t : List Nat) (h : kernel_text env = some t) :
    t ≠ [] ∧ (∀ c ∈ t, c ≠ 0) ∧ t.length < PROPERTY_VALUE_MAX := by
  unfold kernel_text at h
  cases hp : env.proc_version with
  | none => rw [hp] at h; exact absurd h (by simp)
  | some content =>
    rw [hp] at h
    dsimp only at h
    cases hf : fgets 256 content with
    | none => rw [hf] at h; exact absurd h (by simp)
    | some p =>
      obtain ⟨line, rest⟩ := p
      rw [hf] at h
      exact banner_version_facts line t h

/-- The `||` chain of `odmcheck_read_build_prop`, case by case. -/
theorem read_build_prop_eq (env : Env) (b : odmcheck_version_info) :
    odmcheck_read_build_prop env b =
      if property_value env BUILD_PROP_ANDROID_VERSION = [] then
        (-1, { b with android_version := b.android_version.store [] })
      else
        match kernel_text env with
        | none =>
          (-1, { b with android_version :=
            b.android_version.store (property_value env BUILD_PROP_ANDROID_VERSION) })
        | some t =>
          if property_value env BUILD_PROP_ODM_VERSION = [] then
            (-1, { b with
              android_version :=
                b.android_version.store (property_value env BUILD_PROP_ANDROID_VERSION),
              kernel_version := b.kernel_version.store t,
              odm_revision := b.odm_revision.store [] })
          else if property_value env BUILD_PROP_PLATFORM_VERSION = [] then
            (-1, ⟨b.android_version.store (property_value env BUILD_PROP_ANDROID_VERSION),
              b.kernel_version.store t,
              b.odm_revision.store (property_value env BUILD_PROP_ODM_VERSION),
              b.platform_version.store []⟩)
          else
            (0, ⟨b.android_version.store (property_value env BUILD_PROP_ANDROID_VERSION),
              b.kernel_version.store t,
              b.odm_revision.store (property_value env BUILD_PROP_ODM_VERSION),
              b.platform_version.store (property_value env BUILD_PROP_PLATFORM_VERSION)⟩) := by
  have hlen : ∀ l : List Nat, ((l.length : Int) ≤ 0) ↔ l = [] := by
    intro l
    cases l <;> simp
  unfold odmcheck_read_build_prop
  simp only [property_get_eq, get_kernel_version_eq, hlen]
  by_cases h1 : property_value env BUILD_PROP_ANDROID_VERSION = []
  · simp [h1]
  · cases hk : kernel_text env with
    | none => simp [h1]
    | some t =>
      by_cases h3 : property_value env BUILD_PROP_ODM_VERSION = []
      · simp [h1, h3]
      · by_cases h4 : property_value env BUILD_PROP_PLATFORM_VERSION = []
        · simp [h1, h3, h4]
        · simp [h1, h3, h4]

theorem property_get_fails_iff (env : Env) (key : List Nat) (f : Field) :
    (property_get env key f).1 ≤ 0 ↔ property_value env key = [] := by
  rw [property_get_eq]
  cases property_value env key <;> simp

theorem get_kernel_version_fails_iff (env : Env) (f : Field) :
    (odmcheck_get_kernel_version env f).1 ≠ 0 ↔ kernel_text env = none := by
  rw [get_kernel_version_eq]
  cases kernel_text env <;> simp

theorem get_kernel_version_snd (env : Env) (f : Field) (t : List Nat)
    (h : kernel_text env = some t) : (odmcheck_get_kernel_version env f).2 = f.store t := by
  rw [get_kernel_version_eq, h]

/-- C13: `odmcheck_read_build_prop` returns -1 exactly when one of the three
property lookups returns nothing or the kernel banner cannot be parsed;
otherwise it returns 0 and every field holds the non-empty string fetched for
it, the kernel field the one `odmcheck_get_kernel_version` wrote. -/
theorem read_build_prop_fails_iff (env : Env) (b : odmcheck_version_info) :
    ((odmcheck_read_build_prop env b).1 = -1 ↔
      ((property_get env BUILD_PROP_ANDROID_VERSION b.android_version).1 ≤ 0 ∨
       (odmcheck_get_kernel_version env b.kernel_version).1 ≠ 0 ∨
       (property_get env BUILD_PROP_ODM_VERSION b.odm_revision).1 ≤ 0 ∨
       (property_get env BUILD_PROP_PLATFORM_VERSION b.platform_version).1 ≤ 0)) ∧
    ((odmcheck_read_build_prop env b).1 ≠ -1 →
      (odmcheck_read_build_prop env b).1 = 0 ∧
      (odmcheck_read_build_prop env b).2 =
        ⟨(property_get env BUILD_PROP_ANDROID_VERSION b.android_version).2,
         (odmcheck_get_kernel_version env b.kernel_version).2,
         (property_get env BUILD_PROP_ODM_VERSION b.odm_revision).2,
         (property_get env BUILD_PROP_PLATFORM_VERSION b.platform_version).2⟩ ∧
      cstr (odmcheck_read_build_prop env b).2.android_version.val =
        property_value env BUILD_PROP_ANDROID_VERSION ∧
      some (cstr (odmcheck_read_build_prop env b).2.kernel_version.val) = kernel_text env ∧
      cstr (odmcheck_read_build_prop env b).2.odm_revision.val =
        property_value env BUILD_PROP_ODM_VERSION ∧
      cstr (odmcheck_read_build_prop env b).2.platform_version.val =
        property_value env BUILD_PROP_PLATFORM_VERSION ∧
      ¬ has_empty_field (odmcheck_read_build_prop env b).2) := by
  rw [property_get_fails_iff, property_get_fails_iff, property_get_fails_iff,
    get_kernel_version_fails_iff, read_build_prop_eq]
  by_cases h1 : property_value env BUILD_PROP_ANDROID_VERSION = []
  · simp [h1]
  · cases hk : kernel_text env with
    | none => simp [h1]
    | some t =>
      by_cases h3 : property_value env BUILD_PROP_ODM_VERSION = []
      · simp [h1, h3]
      · by_cases h4 : property_value env BUILD_PROP_PLATFORM_VERSION = []
        · simp [h1, h3, h4]
        · obtain ⟨hA0, hAl⟩ := property_value_facts env BUILD_PROP_ANDROID_VERSION
          obtain ⟨hO0, hOl⟩ := property_value_facts env BUILD_PROP_ODM_VERSION
          obtain ⟨hP0, hPl⟩ := property_value_facts env BUILD_PROP_PLATFORM_VERSION
          obtain ⟨hKn, hK0, hKl⟩ := kernel_text_facts env t hk
          have cA := cstr_store b.android_version _ hA0 hAl
          have cK := cstr_store b.kernel_version t hK0 hKl
          have cO := cstr_store b.odm_revision _ hO0 hOl
          have cP := cstr_store b.platform_version _ hP0 hPl
          rw [if_neg h1]
          dsimp only
          rw [if_neg h3, if_neg h4]
          refine ⟨by simp [h1, h3, h4], fun _ => ⟨rfl, ?_, cA, by rw [cK], cO, cP, ?_⟩⟩
          · simp only [property_get_eq, get_kernel_version_snd env _ t hk]
          · unfold has_empty_field
            simp only [cA, cK, cO, cP, h1, h3, h4, hKn, or_self, not_false_eq_true]

/-- Scenario A reads all four values; in scenario E the platform lookup returns
nothing and the result is -1. -/
theorem read_build_prop_fails_iff_witness :
    (odmcheck_read_build_prop (scenario file_A (fun _ => none)) zeroed).1 = 0 ∧
    cstr (odmcheck_read_build_prop (scenario file_A (fun _ => none)) zeroed).2.kernel_version.val
      = bytes "4.9" ∧
    (odmcheck_read_build_prop scenario_E zeroed).1 = -1 :=
  ⟨((read_build_prop_fails_iff (scenario file_A (fun _ => none)) zeroed).2 (by decide)).1,
   Option.some.inj (((read_build_prop_fails_iff (scenario file_A (fun _ => none)) zeroed).2
      (by decide)).2.2.2.1.trans (by decide)),
   (read_build_prop_fails_iff scenario_E zeroed).1.mpr (Or.inr (Or.inr (Or.inr (by decide))))⟩

/-- C14: a failure of `odmcheck_read_build_prop` rolls nothing back. The steps run
in the order android, kernel, revision, platform; at the first step that fails
the result is -1, every field fetched before it holds its fetched value, and
the fields of the steps behind it are as they were. -/
theorem read_build_prop_no_rollback (env : Env) (b : odmcheck_version_info) :
    ((property_get env BUILD_PROP_ANDROID_VERSION b.android_version).1 ≤ 0 →
      (odmcheck_read_build_prop env b).1 = -1 ∧
      (odmcheck_read_build_prop env b).2.kernel_version = b.kernel_version ∧
      (odmcheck_read_build_prop env b).2.odm_revision = b.odm_revision ∧
      (odmcheck_read_build_prop env b).2.platform_version = b.platform_version) ∧
    (¬ (property_get env BUILD_PROP_ANDROID_VERSION b.android_version).1 ≤ 0 →
      (odmcheck_get_kernel_version env b.kernel_version).1 ≠ 0 →
      (odmcheck_read_build_prop env b).1 = -1 ∧
      cstr (odmcheck_read_build_prop env b).2.android_version.val =
        property_value env BUILD_PROP_ANDROID_VERSION ∧
      (odmcheck_read_build_prop env b).2.odm_revision = b.odm_revision ∧
      (odmcheck_read_build_prop env b).2.platform_version = b.platform_version) ∧
    (¬ (property_get env BUILD_PROP_ANDROID_VERSION b.android_version).1 ≤ 0 →
      (odmcheck_get_kernel_version env b.kernel_version).1 = 0 →
      (property_get env BUILD_PROP_ODM_VERSION b.odm_revision).1 ≤ 0 →
      (odmcheck_read_build_prop env b).1 = -1 ∧
      cstr (odmcheck_read_build_prop env b).2.android_version.val =
        property_value env BUILD_PROP_ANDROID_VERSION ∧
      some (cstr (odmcheck_read_build_prop env b).2.kernel_version.val) = kernel_text env ∧
      (odmcheck_read_build_prop env b).2.platform_version = b.platform_version) ∧
    (¬ (property_get env BUILD_PROP_ANDROID_VERSION b.android_version).1 ≤ 0 →
      (odmcheck_get_kernel_version env b.kernel_version).1 = 0 →
      ¬ (property_get env BUILD_PROP_ODM_VERSION b.odm_revision).1 ≤ 0 →
      (property_get env BUILD_PROP_PLATFORM_VERSION b.platform_version).1 ≤ 0 →
      (odmcheck_read_build_prop env b).1 = -1 ∧
      cstr (odmcheck_read_build_prop env b).2.android_version.val =
        property_value env BUILD_PROP_ANDROID_VERSION ∧
      some (cstr (odmcheck_read_build_prop env b).2.kernel_version.val) = kernel_text env ∧
      cstr (odmcheck_read_build_prop env b).2.odm_revision.val =
        property_value env BUILD_PROP_ODM_VERSION) := by
  obtain ⟨hA0, hAl⟩ := property_value_facts env BUILD_PROP_ANDROID_VERSION
  obtain ⟨hO0, hOl⟩ := property_value_facts env BUILD_PROP_ODM_VERSION
  have cA := cstr_store b.android_version _ hA0 hAl
  have cO := cstr_store b.odm_revision _ hO0 hOl
  have hk0 : (odmcheck_get_kernel_version env b.kernel_version).1 = 0 ↔
      ¬ kernel_text env = none := by
    rw [← get_kernel_version_fails_iff env b.kernel_version]
    exact not_not.symm
  rw [property_get_fails_iff, property_get_fails_iff, property_get_fails_iff,
    get_kernel_version_fails_iff, hk0, read_build_prop_eq]
  refine ⟨?_, ?_, ?_, ?_⟩
  · intro h1
    rw [if_pos h1]
    exact ⟨rfl, rfl, rfl, rfl⟩
  · intro h1 hk
    rw [if_neg h1, hk]
    exact ⟨rfl, cA, rfl, rfl⟩
  · intro h1 hk h3
    rw [if_neg h1]
    cases hkt : kernel_text env with
    | none => exact absurd hkt hk
    | some t =>
      obtain ⟨_, hK0, hKl⟩ := kernel_text_facts env t hkt
      have cK := cstr_store b.kernel_version t hK0 hKl
      dsimp only
      rw [if_pos h3]
      exact ⟨rfl, cA, congrArg some cK, rfl⟩
  · intro h1 hk h3 h4
    rw [if_neg h1]
    cases hkt : kernel_text env with
    | none => exact absurd hkt hk
    | some t =>
      obtain ⟨_, hK0, hKl⟩ := kernel_text_facts env t hkt
      have cK := cstr_store b.kernel_version t hK0 hKl
      dsimp only
      rw [if_neg h3, if_pos h4]
      exact ⟨rfl, cA, congrArg some cK, cO⟩

/-- Scenario E: the platform lookup returns nothing; the other three fields hold
the fetched values `9`, `4.9` and `R1`. -/
theorem read_build_prop_no_rollback_witness :
    (odmcheck_read_build_prop scenario_E zeroed).1 = -1 ∧
    cstr (odmcheck_read_build_prop scenario_E zeroed).2.android_version.val = bytes "9" ∧
    some (cstr (odmcheck_read_build_prop scenario_E zeroed).2.kernel_version.val) =
      some (bytes "4.9") ∧
    cstr (odmcheck_read_build_prop scenario_E zeroed).2.odm_revision.val = bytes "R1" :=
  (read_build_prop_no_rollback scenario_E zeroed).2.2.2
    (by decide) (by decide) (by decide) (by decide)

/-! ### Lines longer than the buffer -/

theorem fgets_take_full (chunk rest : List Nat) (h10 : 10 ∉ chunk) :
    fgets_take chunk.length (chunk ++ rest) = (chunk, rest) := by
  induction chunk with
  | nil => rfl
  | cons x xs ih =>
    have hx : x ≠ 10 := fun e => h10 (e ▸ List.mem_cons_self _ _)
    have hxs : 10 ∉ xs := fun e => h10 (List.mem_cons_of_mem _ e)
    simp [fgets_take, hx, ih hxs]

theorem fgets_full (chunk rest : List Nat) (hlen : chunk.length = 255) (h10 : 10 ∉ chunk) :
    fgets 256 (chunk ++ rest) = some (chunk, rest) := by
  have h := fgets_take_full chunk rest h10
  rw [hlen] at h
  cases chunk with
  | nil => simp at hlen
  | cons x xs => simpa [fgets] using h

/-- C18, as stated, fails: with 255 filler bytes followed by `ro.build.version=X`
on one line the claim has the rest of the line discarded and `android_version`
left alone, but the file sets `android_version` to `X`. -/
theorem long_line_counterexample :
    ¬ (∀ (line rest : List Nat) (info : odmcheck_version_info),
        255 < line.length → 10 ∉ line →
        (odmcheck_read_version_file (some (line ++ 10 :: rest)) info).2 =
          (odmcheck_read_version_file (some rest) (process_line (line.take 255) info)).2) := by
  intro h
  have h2 := h (List.replicate 255 120 ++ bytes "ro.build.version=X") [] zeroed
    (by decide) (by decide)
  have h3 : (odmcheck_read_version_file
      (some (List.replicate 255 120 ++ bytes "ro.build.version=X" ++ [10])) zeroed).2.android_version
      = Field.strncpy (bytes "X") := by decide
  rw [h2] at h3
  exact absurd h3 (by decide)

/-- C18 (amended): a line longer than the buffer is read in pieces. When the file
starts with 255 bytes without a newline, these are processed as one line and
reading goes on behind them: the following bytes of the same physical line
are processed as further lines, and they can set a field, as in the file of
255 filler bytes followed by `ro.build.version=X`. -/
theorem long_line_split (chunk rest : List Nat) (info : odmcheck_version_info)
    (hlen : chunk.length = 255) (h10 : 10 ∉ chunk) :
    odmcheck_read_version_file (some (chunk ++ rest)) info =
      odmcheck_read_version_file (some rest) (process_line chunk info) ∧
    (odmcheck_read_version_file (some long_line_file) zeroed).2.android_version =
      Field.strncpy (bytes "X") := by
  constructor
  · have hl : (chunk ++ rest).length = (rest.length + 254) + 1 := by
      rw [List.length_append, hlen]
      omega
    simp only [odmcheck_read_version_file]
    rw [hl, read_loop_succ, fgets_full chunk rest hlen h10]
    dsimp only
    rw [read_loop_fuel (rest.length + 254) rest _ (by omega)]
  · decide

/-- The file of 255 filler bytes followed by `ro.build.version=X`: the filler is
one line without effect, the rest is read as the line `ro.build.version=X`. -/
theorem long_line_split_witness :
    odmcheck_read_version_file (some long_line_file) zeroed =
      odmcheck_read_version_file (some (bytes "ro.build.version=X\n"))
        (process_line (List.replicate 255 120) zeroed) ∧
    process_line (List.replicate 255 120) zeroed = zeroed :=
  ⟨(long_line_split (List.replicate 255 120) (bytes "ro.build.version=X\n") zeroed
      (by decide) (by decide)).1,
   by decide⟩

/-! ### Bytes behind the terminator -/

theorem zero_padded_of_append (l : List Nat) (k : Nat) (f : Field) (hl : ∀ c ∈ l, c ≠ 0)
    (hf : f.val = l ++ List.replicate k 0) : zero_padded f := by
  unfold zero_padded
  have hd : (l ++ List.replicate k 0).dropWhile (fun c => c != 0) = List.replicate k 0 := by
    apply (span_front (fun c => c != 0) l (List.replicate k 0) ?_ ?_).2
    · intro c hc
      simpa using hl c hc
    · intro c hc
      cases k with
      | zero => simp at hc
      | succ k =>
        simp only [List.replicate_succ, List.head?_cons, Option.some.injEq] at hc
        subst hc
        rfl
  rw [hf, hd]
  intro c hc
  exact (List.mem_replicate.mp hc).2

theorem zero_padded_zero : zero_padded Field.zero :=
  zero_padded_of_append [] PROPERTY_VALUE_MAX Field.zero (fun _ h => absurd h (List.not_mem_nil _))
    rfl

theorem zero_padded_strncpy (v : List Nat) : zero_padded (Field.strncpy v) :=
  zero_padded_of_append ((cstr v).take PROPERTY_VALUE_MAX) _ (Field.strncpy v)
    (fun _ hc => mem_cstr_ne_zero (List.mem_of_mem_take hc)) rfl

theorem zero_padded_store_zero (s : List Nat) (h0 : ∀ c ∈ s, c ≠ 0)
    (hlen : s.length < PROPERTY_VALUE_MAX) : zero_padded (Field.zero.store s) := by
  apply zero_padded_of_append s (PROPERTY_VALUE_MAX - s.length) _ h0
  rw [store_val Field.zero s hlen]
  show s ++ 0 :: (List.replicate PROPERTY_VALUE_MAX 0).drop (s.length + 1) = _
  rw [List.drop_replicate]
  have e : PROPERTY_VALUE_MAX - s.length = (PROPERTY_VALUE_MAX - (s.length + 1)) + 1 := by omega
  rw [e, List.replicate_succ]

theorem all_padded_zeroed : all_padded zeroed :=
  ⟨zero_padded_zero, zero_padded_zero, zero_padded_zero, zero_padded_zero⟩

theorem process_line_cases (line : List Nat) (r : odmcheck_version_info) :
    process_line line r = r ∨ ∃ v,
      process_line line r = { r with android_version := Field.strncpy v } ∨
      process_line line r = { r with odm_revision := Field.strncpy v } ∨
      process_line line r = { r with kernel_version := Field.strncpy v } ∨
      process_line line r = { r with platform_version := Field.strncpy v } := by
  cases h : strchr_split 61 (cstr line) with
  | none => exact Or.inl (by simp only [process_line, h])
  | some p =>
    obtain ⟨n, v⟩ := p
    cases hn : odmcheck_strip_both n with
    | none => exact Or.inl (by simp only [process_line, h, hn])
    | some name =>
      cases hv : odmcheck_strip_both v with
      | none => exact Or.inl (by simp only [process_line, h, hn, hv])
      | some value =>
        by_cases h1 : TAG_ANDROID_VERSION = name
        · exact Or.inr ⟨value, Or.inl (by simp only [process_line, h, hn, hv, if_pos h1])⟩
        · by_cases h2 : TAG_ODM_REVISION = name
          · exact Or.inr ⟨value, Or.inr (Or.inl
              (by simp only [process_line, h, hn, hv, if_neg h1, if_pos h2]))⟩
          · by_cases h3 : TAG_KERNEL_VERSION = name
            · exact Or.inr ⟨value, Or.inr (Or.inr (Or.inl
                (by simp only [process_line, h, hn, hv, if_neg h1, if_neg h2, if_pos h3])))⟩
            · by_cases h4 : TAG_PLATFORM_VERSION = name
              · exact Or.inr ⟨value, Or.inr (Or.inr (Or.inr
                  (by simp only [process_line, h, hn, hv, if_neg h1, if_neg h2, if_neg h3,
                    if_pos h4])))⟩
              · exact Or.inl
                  (by simp only [process_line, h, hn, hv, if_neg h1, if_neg h2, if_neg h3,
                    if_neg h4])

theorem process_line_padded (line : List Nat) (r : odmcheck_version_info)
    (h : all_padded r) : all_padded (process_line line r) := by
  obtain ⟨h1, h2, h3, h4⟩ := h
  rcases process_line_cases line r with e | ⟨v, e | e | e | e⟩ <;> rw [e]
  · exact ⟨h1, h2, h3, h4⟩
  · exact ⟨zero_padded_strncpy v, h2, h3, h4⟩
  · exact ⟨h1, h2, zero_padded_strncpy v, h4⟩
  · exact ⟨h1, zero_padded_strncpy v, h3, h4⟩
  · exact ⟨h1, h2, h3, zero_padded_strncpy v⟩

theorem read_loop_padded (fuel : Nat) (s : List Nat) (r : odmcheck_version_info)
    (h : all_padded r) : all_padded (read_loop fuel s r) := by
  induction fuel generalizing s r with
  | zero => exact h
  | succ k ih =>
    rw [read_loop_succ]
    cases fgets 256 s with
    | none => exact h
    | some p => exact ih p.2 _ (process_line_padded p.1 r h)

theorem read_version_file_padded (file : Option (List Nat)) (r : odmcheck_version_info)
    (h : all_padded r) : all_padded (odmcheck_read_version_file file r).2 := by
  cases file with
  | none => exact h
  | some content => exact read_loop_padded _ _ _ h

theorem read_build_prop_padded (env : Env) :
    all_padded (odmcheck_read_build_prop env zeroed).2 := by
  have hp : ∀ key, zero_padded (Field.zero.store (property_value env key)) := fun key =>
    zero_padded_store_zero _ (property_value_facts env key).1 (property_value_facts env key).2
  have hnil : zero_padded (Field.zero.store []) :=
    zero_padded_store_zero [] (fun _ h => absurd h (List.not_mem_nil _)) (by decide)
  rw [read_build_prop_eq]
  by_cases h1 : property_value env BUILD_PROP_ANDROID_VERSION = []
  · rw [if_pos h1]
    exact ⟨hnil, zero_padded_zero, zero_padded_zero, zero_padded_zero⟩
  · rw [if_neg h1]
    cases hk : kernel_text env with
    | none => exact ⟨hp _, zero_padded_zero, zero_padded_zero, zero_padded_zero⟩
    | some t =>
      obtain ⟨_, hK0, hKl⟩ := kernel_text_facts env t hk
      have hkp := zero_padded_store_zero t hK0 hKl
      dsimp only
      by_cases h3 : property_value env BUILD_PROP_ODM_VERSION = []
      · rw [if_pos h3]
        exact ⟨hp _, hkp, hnil, zero_padded_zero⟩
      · rw [if_neg h3]
        by_cases h4 : property_value env BUILD_PROP_PLATFORM_VERSION = []
        · rw [if_pos h4]
          exact ⟨hp _, hkp, hp _, hnil⟩
        · rw [if_neg h4]
          exact ⟨hp _, hkp, hp _, hp _⟩

theorem eq_of_same_strings (a b : odmcheck_version_info) (ha : all_padded a)
    (hb : all_padded b) (h : same_strings a b) : a = b := by
  obtain ⟨a1, a2, a3, a4⟩ := a
  obtain ⟨b1, b2, b3, b4⟩ := b
  obtain ⟨p1, p2, p3, p4⟩ := ha
  obtain ⟨q1, q2, q3, q4⟩ := hb
  obtain ⟨s1, s2, s3, s4⟩ := h
  simp only at p1 p2 p3 p4 q1 q2 q3 q4 s1 s2 s3 s4
  rw [← strncpy_cstr_of_padded a1 p1, ← strncpy_cstr_of_padded a2 p2,
    ← strncpy_cstr_of_padded a3 p3, ← strncpy_cstr_of_padded a4 p4, s1, s2, s3, s4,
    strncpy_cstr_of_padded b1 q1, strncpy_cstr_of_padded b2 q2,
    strncpy_cstr_of_padded b3 q3, strncpy_cstr_of_padded b4 q4]

/-- C19: the records the program fills from zeroed records are NUL from the first
NUL of every field on: the declared record after `odmcheck_read_version_file`
and the actual record after a successful `odmcheck_read_build_prop`. On such
records the comparison of the whole block is 0 exactly when the four fields
hold the same strings, so in `main` the comparator cannot report a difference
for two records with equal strings. -/
theorem padded_records_compare :
    (∀ file : Option (List Nat), all_padded (odmcheck_read_version_file file zeroed).2) ∧
    (∀ env : Env, (odmcheck_read_build_prop env zeroed).1 = 0 →
      all_padded (odmcheck_read_build_prop env zeroed).2) ∧
    (∀ a b : odmcheck_version_info, all_padded a → all_padded b →
      (odmcheck_compare_versions a b = 0 ↔ same_strings a b)) ∧
    (∀ env : Env, (odmcheck_read_build_prop env zeroed).1 = 0 →
      (odmcheck_compare_versions (odmcheck_read_version_file env.version_file zeroed).2
          (odmcheck_read_build_prop env zeroed).2 = 0 ↔
        same_strings (odmcheck_read_version_file env.version_file zeroed).2
          (odmcheck_read_build_prop env zeroed).2)) := by
  have key : ∀ a b : odmcheck_version_info, all_padded a → all_padded b →
      (odmcheck_compare_versions a b = 0 ↔ same_strings a b) := by
    intro a b ha hb
    rw [compare_versions_eq_zero]
    constructor
    · rintro rfl
      exact ⟨rfl, rfl, rfl, rfl⟩
    · exact eq_of_same_strings a b ha hb
  exact ⟨fun file => read_version_file_padded file zeroed all_padded_zeroed,
    fun env _ => read_build_prop_padded env, key,
    fun env _ => key _ _ (read_version_file_padded _ zeroed all_padded_zeroed)
      (read_build_prop_padded env)⟩

/-- Scenario A: both records are NUL-padded and hold the same strings, and the
comparator returns 0; in scenario B the strings differ and it does not. -/
theorem padded_records_compare_witness :
    all_padded (odmcheck_read_build_prop (scenario file_A (fun _ => none)) zeroed).2 ∧
    same_strings (odmcheck_read_version_file (some file_A) zeroed).2
      (odmcheck_read_build_prop (scenario file_A (fun _ => none)) zeroed).2 ∧
    ¬ same_strings (odmcheck_read_version_file (some file_B) zeroed).2
      (odmcheck_read_build_prop (scenario file_B (fun _ => none)) zeroed).2 :=
  ⟨padded_records_compare.2.1 (scenario file_A (fun _ => none)) (by decide),
   (padded_records_compare.2.2.2 (scenario file_A (fun _ => none)) (by decide)).mp (by decide),
   fun h => absurd
     ((padded_records_compare.2.2.2 (scenario file_B (fun _ => none)) (by decide)).mpr h)
     (by decide)⟩

/-! ### Several lines with the same tag -/

theorem process_line_fields (line : List Nat) (r : odmcheck_version_info) :
    (process_line line r).android_version =
      field_update TAG_ANDROID_VERSION (line_assignment line) r.android_version ∧
    (process_line line r).kernel_version =
      field_update TAG_KERNEL_VERSION (line_assignment line) r.kernel_version ∧
    (process_line line r).odm_revision =
      field_update TAG_ODM_REVISION (line_assignment line) r.odm_revision ∧
    (process_line line r).platform_version =
      field_update TAG_PLATFORM_VERSION (line_assignment line) r.platform_version := by
  have n12 : ¬ TAG_ANDROID_VERSION = TAG_ODM_REVISION := by decide
  have n13 : ¬ TAG_ANDROID_VERSION = TAG_KERNEL_VERSION := by decide
  have n14 : ¬ TAG_ANDROID_VERSION = TAG_PLATFORM_VERSION := by decide
  have n23 : ¬ TAG_ODM_REVISION = TAG_KERNEL_VERSION := by decide
  have n24 : ¬ TAG_ODM_REVISION = TAG_PLATFORM_VERSION := by decide
  have n34 : ¬ TAG_KERNEL_VERSION = TAG_PLATFORM_VERSION := by decide
  cases h : strchr_split 61 (cstr line) with
  | none =>
    simp [process_line, line_assignment, h, field_update]
  | some p =>
    obtain ⟨n, v⟩ := p
    cases hn : odmcheck_strip_both n with
    | none =>
      simp [process_line, line_assignment, h, hn, field_update]
    | some name =>
      cases hv : odmcheck_strip_both v with
      | none =>
        simp [process_line, line_assignment, h, hn, hv, field_update]
      | some value =>
        simp only [process_line, line_assignment, h, hn, hv, field_update]
        by_cases h1 : TAG_ANDROID_VERSION = name
        · subst h1
          simp [n12, n13, n14, n23, n24, n34, Ne.symm n12, Ne.symm n13, Ne.symm n14, Ne.symm n23,
            Ne.symm n24, Ne.symm n34]
        · by_cases h2 : TAG_ODM_REVISION = name
          · subst h2
            simp [n12, n13, n14, n23, n24, n34, Ne.symm n12, Ne.symm n13, Ne.symm n14, Ne.symm n23,
            Ne.symm n24, Ne.symm n34]
          · by_cases h3 : TAG_KERNEL_VERSION = name
            · subst h3
              simp [n12, n13, n14, n23, n24, n34, Ne.symm n12, Ne.symm n13, Ne.symm n14, Ne.symm n23,
            Ne.symm n24, Ne.symm n34]
            · by_cases h4 : TAG_PLATFORM_VERSION = name
              · subst h4
                simp [n12, n13, n14, n23, n24, n34, Ne.symm n12, Ne.symm n13, Ne.symm n14, Ne.symm n23,
            Ne.symm n24, Ne.symm n34]
              · simp [h1, h2, h3, h4, Ne.symm h1, Ne.symm h2, Ne.symm h3, Ne.symm h4]

theorem read_loop_fields (fuel : Nat) (s : List Nat) (r : odmcheck_version_info) :
    (read_loop fuel s r).android_version =
      (file_lines fuel s).foldl
        (fun f l => field_update TAG_ANDROID_VERSION (line_assignment l) f) r.android_version ∧
    (read_loop fuel s r).kernel_version =
      (file_lines fuel s).foldl
        (fun f l => field_update TAG_KERNEL_VERSION (line_assignment l) f) r.kernel_version ∧
    (read_loop fuel s r).odm_revision =
      (file_lines fuel s).foldl
        (fun f l => field_update TAG_ODM_REVISION (line_assignment l) f) r.odm_revision ∧
    (read_loop fuel s r).platform_version =
      (file_lines fuel s).foldl
        (fun f l => field_update TAG_PLATFORM_VERSION (line_assignment l) f)
        r.platform_version := by
  induction fuel generalizing s r with
  | zero => exact ⟨rfl, rfl, rfl, rfl⟩
  | succ k ih =>
    rw [read_loop_succ]
    unfold file_lines
    cases fgets 256 s with
    | none => exact ⟨rfl, rfl, rfl, rfl⟩
    | some p =>
      obtain ⟨line, rest⟩ := p
      obtain ⟨h1, h2, h3, h4⟩ := process_line_fields line r
      obtain ⟨i1, i2, i3, i4⟩ := ih rest (process_line line r)
      dsimp only
      rw [i1, i2, i3, i4, h1, h2, h3, h4]
      exact ⟨rfl, rfl, rfl, rfl⟩

theorem last_value_cons (tag name value : List Nat) (l : List (List Nat × List Nat)) :
    last_value tag ((name, value) :: l) =
      match last_value tag l with
      | some w => some w
      | none => if name = tag then some value else none := by
  unfold last_value
  by_cases h : name = tag
  · simp only [List.filter_cons, h, decide_True, if_true, List.getLast?_cons]
    cases (l.filter (fun p => decide (p.1 = tag))).getLast? <;> rfl
  · simp only [List.filter_cons, h, decide_False, Bool.false_eq_true, if_false]
    cases (l.filter (fun p => decide (p.1 = tag))).getLast? <;> rfl

theorem foldl_update_last (tag : List Nat) (lines : List (List Nat)) (f0 : Field) :
    lines.foldl (fun f l => field_update tag (line_assignment l) f) f0 =
      field_after tag (lines.filterMap line_assignment) f0 := by
  induction lines generalizing f0 with
  | nil => rfl
  | cons l ls ih =>
    rw [List.foldl_cons, ih]
    cases ha : line_assignment l with
    | none =>
      rw [List.filterMap_cons_none ha]
      rfl
    | some p =>
      obtain ⟨name, value⟩ := p
      rw [List.filterMap_cons_some ha]
      unfold field_after
      rw [last_value_cons]
      cases last_value tag (List.filterMap line_assignment ls) with
      | some w => rfl
      | none =>
        by_cases h : name = tag
        · simp [field_update, h]
        · simp [field_update, h]

theorem strip_both_ne_zero (s v : List Nat) (h : odmcheck_strip_both s = some v) :
    ∀ c ∈ v, c ≠ 0 := by
  unfold odmcheck_strip_both at h
  split at h
  · exact absurd h (by simp)
  · rename_i c t _
    by_cases hc : c = 0
    · rw [if_pos hc] at h
      exact absurd h (by simp)
    · rw [if_neg hc] at h
      simp only [Option.some.injEq] at h
      intro x hx
      rw [← h] at hx
      have := List.mem_takeWhile_imp hx
      simp only [Bool.and_eq_true, bne_iff_ne, ne_eq] at this
      exact this.2

theorem line_assignment_value (line name value : List Nat)
    (h : line_assignment line = some (name, value)) : ∀ c ∈ value, c ≠ 0 := by
  unfold line_assignment at h
  cases hs : strchr_split 61 (cstr line) with
  | none => rw [hs] at h; exact absurd h (by simp)
  | some p =>
    obtain ⟨n, v⟩ := p
    rw [hs] at h
    dsimp only at h
    cases hn : odmcheck_strip_both n with
    | none => rw [hn] at h; exact absurd h (by simp)
    | some nm =>
      cases hv : odmcheck_strip_both v with
      | none => rw [hn, hv] at h; exact absurd h (by simp)
      | some vl =>
        rw [hn, hv] at h
        simp only [Option.some.injEq, Prod.mk.injEq] at h
        rw [← h.2]
        exact strip_both_ne_zero v vl hv

theorem last_value_mem (tag v : List Nat) (l : List (List Nat × List Nat))
    (h : last_value tag l = some v) : ∃ name, (name, v) ∈ l := by
  unfold last_value at h
  cases hg : (l.filter (fun p => decide (p.1 = tag))).getLast? with
  | none => rw [hg] at h; exact absurd h (by simp)
  | some p =>
    rw [hg] at h
    simp only [Option.map_some', Option.some.injEq] at h
    have hm := List.mem_of_getLast?_eq_some hg
    exact ⟨p.1, by rw [← h]; exact (List.mem_filter.mp hm).1⟩

/-- C20: the last occurrence wins. After reading a file every field is the value
of the last accepted line that carries its tag, copied with `strncpy`: the
first `min(|v|, PROPERTY_VALUE_MAX)` bytes of the value followed by NUL bytes
only, whatever earlier lines stored there; a field whose tag occurs on no
accepted line keeps its initial content. -/
theorem last_occurrence_wins (content : List Nat) (info : odmcheck_version_info) :
    (odmcheck_read_version_file (some content) info).2.android_version =
      field_after TAG_ANDROID_VERSION (assignments content) info.android_version ∧
    (odmcheck_read_version_file (some content) info).2.kernel_version =
      field_after TAG_KERNEL_VERSION (assignments content) info.kernel_version ∧
    (odmcheck_read_version_file (some content) info).2.odm_revision =
      field_after TAG_ODM_REVISION (assignments content) info.odm_revision ∧
    (odmcheck_read_version_file (some content) info).2.platform_version =
      field_after TAG_PLATFORM_VERSION (assignments content) info.platform_version ∧
    (∀ (tag v : List Nat) (initial : Field), last_value tag (assignments content) = some v →
      (field_after tag (assignments content) initial).val = padded_value v) ∧
    (∀ (tag : List Nat) (initial : Field), last_value tag (assignments content) = none →
      field_after tag (assignments content) initial = initial) := by
  obtain ⟨h1, h2, h3, h4⟩ := read_loop_fields content.length content info
  refine ⟨?_, ?_, ?_, ?_, ?_, ?_⟩
  · exact h1.trans (foldl_update_last _ _ _)
  · exact h2.trans (foldl_update_last _ _ _)
  · exact h3.trans (foldl_update_last _ _ _)
  · exact h4.trans (foldl_update_last _ _ _)
  · intro tag v initial h
    obtain ⟨name, hm⟩ := last_value_mem tag v _ h
    obtain ⟨line, _, hl⟩ := List.mem_filterMap.mp hm
    unfold field_after
    rw [h]
    exact strncpy_val v (line_assignment_value line name v hl)
  · intro tag initial h
    unfold field_after
    rw [h]

/-- A file with `ro.build.version = 8.1.0` and later `ro.build.version = 9`, read
into the record of scenario A: `android_version` is `9` followed by NUL bytes
only, and `kernel_version`, which no line sets, keeps `4.9`. -/
theorem last_occurrence_wins_witness :
    (odmcheck_read_version_file (some file_twice)
        (record_of (bytes "7.1.1") (bytes "4.9") (bytes "R0") (bytes "sdm660"))).2
      = record_of (bytes "9") (bytes "4.9") (bytes "R1") (bytes "sdm660") ∧
    (field_after TAG_ANDROID_VERSION (assignments file_twice) Field.zero).val =
      padded_value (bytes "9") ∧
    field_after TAG_KERNEL_VERSION (assignments file_twice) (Field.strncpy (bytes "4.9")) =
      Field.strncpy (bytes "4.9") :=
  ⟨by decide,
   (last_occurrence_wins file_twice zeroed).2.2.2.2.1 TAG_ANDROID_VERSION (bytes "9")
     Field.zero (by decide),
   (last_occurrence_wins file_twice zeroed).2.2.2.2.2 TAG_KERNEL_VERSION
     (Field.strncpy (bytes "4.9")) (by decide)⟩

end Odmcheck
